import Mathlib

/-!
Shallow embedding of `equinox/vmap_pmap.py`.

The embedding covers: the axis-resolution helpers (`_resolve_axis`,
`_resolve_axes`, `if_array`), the `filter_vmap` wrapper (`_VmapWrapper`),
the `filter_pmap` wrapper (`_PmapWrapper`) together with the construction
of its compiled-entry cache key and the inner function built by
`_filter_pmap_cache`, and executable models of the external collaborators
the module uses as black boxes (`jax.vmap`, the `equinox` structure
partition/combine utilities, and the `compile_cache` memoisation table).

Python pytrees are modelled by a binary-encoded rose tree `PTree`:
a container node with children `[t1, ..., tn]` is `cons t1 (cons ... nil)`.
JAX arrays are modelled by `NDArray`: a shape, a dtype tag, and flat
row-major data over `Int`.  Python exceptions are modelled with `Except`
over a closed error inductive.
-/

namespace Equinox

/-- The distinct error kinds raised by (or propagated through) the module.
`kwargsErr` is the keyword-argument usage error, `axisSpecErr` the
`_resolve_axis` configuration error, `axisBoundsErr` and `outAxesTypeErr`
the two ValueErrors of `_check_map_out_axis`, `donateErr` and
`reservedKwargErr` the two lift-time configuration errors of `filter_pmap`,
`structureErr` a pytree-structure mismatch raised by the tree utilities,
and `backendErr` any error propagated unchanged from the JAX backend. -/
inductive Err where
  | kwargsErr
  | axisSpecErr
  | axisBoundsErr
  | outAxesTypeErr
  | donateErr
  | reservedKwargErr
  | structureErr
  | backendErr
deriving DecidableEq, Repr

instance exceptDecidableEq {ε α : Type} [DecidableEq ε] [DecidableEq α] :
    DecidableEq (Except ε α) := fun x y =>
  match x, y with
  | .ok a, .ok b =>
      if h : a = b then isTrue (by rw [h]) else isFalse (fun hc => h (Except.ok.inj hc))
  | .error a, .error b =>
      if h : a = b then isTrue (by rw [h]) else isFalse (fun hc => h (Except.error.inj hc))
  | .ok _, .error _ => isFalse (fun hc => Except.noConfusion hc)
  | .error _, .ok _ => isFalse (fun hc => Except.noConfusion hc)

/-- Number of elements of an array of the given shape (row-major). -/
def listProd (s : List Nat) : Nat := s.foldr (fun a b => a * b) 1

/-- All multi-indices of a shape, in row-major (lexicographic) order. -/
def allIndices : List Nat → List (List Nat)
  | [] => [[]]
  | n :: s => (List.range n).flatMap (fun i => (allIndices s).map (fun idx => i :: idx))

/-- Row-major flat offset of a multi-index into an array of the given shape. -/
def flatIndex : List Nat → List Nat → Nat
  | _ :: s, i :: idx => i * listProd s + flatIndex s idx
  | _, _ => 0

/-- Exchange the entries at positions `j` and `k` of a list of naturals. -/
def listSwap (j k : Nat) (l : List Nat) : List Nat :=
  (List.range l.length).map fun t =>
    if t = j then l.getD k 0 else if t = k then l.getD j 0 else l.getD t 0

/-- Model of a JAX array: shape, dtype tag, and flat row-major data. -/
structure NDArray where
  shape : List Nat
  dtype : Nat
  data : List Int
deriving DecidableEq, Repr

def NDArray.ndim (a : NDArray) : Nat := a.shape.length

/-- Element at a multi-index (0 out of range, as the claims only exercise
in-range accesses). -/
def NDArray.get (a : NDArray) (idx : List Nat) : Int :=
  a.data.getD (flatIndex a.shape idx) 0

/-- Slice of an array at index `i` along axis `axis` (the per-index input
slice taken by the batch-mapping primitive). -/
def NDArray.slice (a : NDArray) (axis : Nat) (i : Nat) : NDArray :=
  ⟨a.shape.eraseIdx axis, a.dtype,
    (allIndices (a.shape.eraseIdx axis)).map fun idx => a.get (idx.insertIdx axis i)⟩

/-- `jnp.swapaxes(a, 0, k)` for a non-negative in-range `k`. -/
def NDArray.swapaxes0 (a : NDArray) (k : Nat) : NDArray :=
  ⟨listSwap 0 k a.shape, a.dtype,
    (allIndices (listSwap 0 k a.shape)).map fun idx => a.get (listSwap 0 k idx)⟩

/-- Normalise a possibly-negative axis against a rank, as JAX does:
valid axes are the integers in `[-nd, nd)`. -/
def normAxis (nd : Nat) (k : Int) : Option Nat :=
  if 0 ≤ k then (if k < nd then some k.toNat else none)
  else (if 0 ≤ k + nd then some (k + nd).toNat else none)

/-- Model of `_swapaxes(array, axis) = jnp.swapaxes(array, 0, axis)`,
with JAX's axis normalisation; an out-of-range axis is a backend error. -/
def swapaxesI (a : NDArray) (k : Int) : Except Err NDArray :=
  match normAxis a.ndim k with
  | some k2 => .ok (a.swapaxes0 k2)
  | none => .error .backendErr

/-- Binary-encoded pytree: a container node with children `[t1, ..., tn]`
is represented as `cons t1 (cons ... nil)`; `leaf` holds an atomic value. -/
inductive PTree (α : Type) where
  | leaf (x : α)
  | nil
  | cons (hd tl : PTree α)
deriving DecidableEq, Repr

namespace PTree

def map (f : α → β) : PTree α → PTree β
  | .leaf x => .leaf (f x)
  | .nil => .nil
  | .cons hd tl => .cons (map f hd) (map f tl)

/-- Structure (treedef) of a tree, forgetting the leaf values. -/
def shapeOf (t : PTree α) : PTree Unit := t.map fun _ => ()

/-- Zip two congruent trees leafwise; `none` on structure mismatch. -/
def zipWith (f : α → β → γ) : PTree α → PTree β → Option (PTree γ)
  | .leaf x, .leaf y => some (.leaf (f x y))
  | .nil, .nil => some .nil
  | .cons a as, .cons b bs => do
      let hd ← zipWith f a b
      let tl ← zipWith f as bs
      some (.cons hd tl)
  | _, _ => none

/-- Zip two congruent trees with a fallible leaf function; a structure
mismatch is a `structureErr` (as raised by `jax.tree_util`). -/
def zipWithE (f : α → β → Except Err γ) : PTree α → PTree β → Except Err (PTree γ)
  | .leaf x, .leaf y => do
      let z ← f x y
      .ok (.leaf z)
  | .nil, .nil => .ok .nil
  | .cons a as, .cons b bs => do
      let hd ← zipWithE f a b
      let tl ← zipWithE f as bs
      .ok (.cons hd tl)
  | _, _ => .error .structureErr

/-- Map a fallible function over the leaves of a tree. -/
def mapE (f : α → Except Err β) : PTree α → Except Err (PTree β)
  | .leaf x => do
      let y ← f x
      .ok (.leaf y)
  | .nil => .ok .nil
  | .cons hd tl => do
      let h ← mapE f hd
      let t ← mapE f tl
      .ok (.cons h t)

/-- Model of `jtu.tree_map(f, prefixTree, t)`: each leaf of the prefix tree
is paired with the corresponding *subtree* of `t` (JAX's `flatten_up_to`),
and the resulting subtrees are grafted back in place. -/
def mapUpTo (f : β → PTree α → Except Err (PTree γ)) :
    PTree β → PTree α → Except Err (PTree γ)
  | .leaf b, t => f b t
  | .nil, .nil => .ok .nil
  | .cons b bs, .cons t ts => do
      let hd ← mapUpTo f b t
      let tl ← mapUpTo f bs ts
      .ok (.cons hd tl)
  | _, _ => .error .structureErr

/-- Leaf at a path (`false` = descend into the head child,
`true` = descend into the remaining children). -/
def getPath : PTree α → List Bool → Option α
  | .leaf x, [] => some x
  | .cons hd _, false :: p => getPath hd p
  | .cons _ tl, true :: p => getPath tl p
  | _, _ => none

/-- Leaves of a tree in left-to-right order. -/
def leaves : PTree α → List α
  | .leaf x => [x]
  | .nil => []
  | .cons hd tl => leaves hd ++ leaves tl

end PTree

/-- Model of a pytree leaf: a JAX array or an opaque non-array-like
Python object (identified by a tag). -/
inductive Leaf where
  | arr (a : NDArray)
  | obj (n : Nat)
deriving DecidableEq, Repr

/-- Model of `equinox.is_array`. -/
def Leaf.isArr : Leaf → Bool
  | .arr _ => true
  | .obj _ => false

/-- A resolved per-leaf axis value: `None`, an integer, or (for the
error-handling paths) a value of some other Python type returned by a
user-supplied callable. -/
inductive AxisVal where
  | anone
  | aint (i : Int)
  | abad (c : Nat)
deriving DecidableEq, Repr

/-- A per-argument (or per-output) axis specification leaf: `None`, an
integer, a callable applied leafwise, or a value of any other type
(which `_resolve_axis` rejects). -/
inductive AxisSpec where
  | noneSpec
  | intSpec (i : Int)
  | callableSpec (f : Leaf → AxisVal)
  | invalidSpec (c : Nat)

/-- `_is_none` applied to an axis-spec leaf (used to build the
`unmapped_axis` partition mask in `_VmapWrapper.__call__`). -/
def AxisSpec.isNoneSpec : AxisSpec → Bool
  | .noneSpec => true
  | _ => false

/-- `_resolve_axis(axis_spec, elem)`: a `None` or integer spec broadcasts
to every leaf of the subtree, a callable is applied to every leaf, and
any other spec value raises the axis-spec configuration error. -/
def resolveAxis : AxisSpec → PTree Leaf → Except Err (PTree AxisVal)
  | .noneSpec, elem => .ok (elem.map fun _ => .anone)
  | .intSpec i, elem => .ok (elem.map fun _ => .aint i)
  | .callableSpec f, elem => .ok (elem.map f)
  | .invalidSpec _, _ => .error .axisSpecErr

/-- `_resolve_axes(pytree, axes_spec)`: map `_resolve_axis` over the spec
tree (a prefix of the value tree, with `None` treated as a terminal
leaf), pairing each spec leaf with the corresponding value subtree. -/
def resolveAxes (pytree : PTree Leaf) (axesSpec : PTree AxisSpec) :
    Except Err (PTree AxisVal) :=
  PTree.mapUpTo resolveAxis axesSpec pytree

/-- Model of `if_array(axis)`: the given axis on arrays, `None` otherwise. -/
def ifArrayF (axis : Int) : Leaf → AxisVal
  | .arr _ => .aint axis
  | .obj _ => .anone

/-- `_is_none` applied to a resolved axis value. -/
def AxisVal.isNone : AxisVal → Bool
  | .anone => true
  | _ => false

/-- Broadcast a prefix tree of per-subtree values over a value tree
(each leaf of the prefix is copied onto every leaf of the corresponding
subtree), as JAX's `flatten_up_to` does for filter specs. -/
def broadcastUpTo (m : PTree β) (t : PTree α) : Except Err (PTree β) :=
  PTree.mapUpTo (fun b sub => .ok (sub.map fun _ => b)) m t

/-- Model of `equinox.partition(pytree, filter_spec)` for a boolean pytree
`filter_spec` that is a prefix of `pytree`: the first component keeps the
leaves under a `true` mask leaf, the second the leaves under a `false`
mask leaf; removed leaves are replaced by `none`. -/
def partitionT (t : PTree α) (m : PTree Bool) :
    Except Err (PTree (Option α) × PTree (Option α)) := do
  let mm ← broadcastUpTo m t
  let keep ← PTree.zipWithE (fun x b => .ok (if b then some x else none)) t mm
  let drop ← PTree.zipWithE (fun x b => .ok (if b then none else some x)) t mm
  .ok (keep, drop)

/-- Model of `equinox.partition(pytree, pred)` with a per-leaf predicate
(as used with `is_array` on the `filter_pmap` argument tuple). -/
def partitionP (t : PTree α) (p : α → Bool) : PTree (Option α) × PTree (Option α) :=
  (t.map fun x => if p x then some x else none,
   t.map fun x => if p x then none else some x)

/-- Model of `equinox.combine` on two complementary partitioned trees:
leafwise, the first non-`None` value.  The flows in this module only ever
combine complementary partitions, so a position empty on both sides is a
structure error. -/
def combineStrict (t u : PTree (Option α)) : Except Err (PTree α) :=
  PTree.zipWithE
    (fun a b => match a with
      | some x => .ok x
      | none => match b with
        | some y => .ok y
        | none => .error .structureErr) t u

/-- Map a fallible function over a list, propagating the first error. -/
def exceptMap (f : α → Except Err β) : List α → Except Err (List β)
  | [] => .ok []
  | x :: xs => do
      let y ← f x
      let ys ← exceptMap f xs
      .ok (y :: ys)

/-- Fold a fallible function over a list, propagating the first error. -/
def exceptFoldl (f : σ → α → Except Err σ) (s : σ) : List α → Except Err σ
  | [] => .ok s
  | x :: xs => do
      let s2 ← f s x
      exceptFoldl f s2 xs

/-- One input leaf of the batch-mapping primitive, sliced at batch index
`i`: a leaf with axis `None` is broadcast unchanged, a mapped array leaf
is sliced along its (normalised) axis, anything else is a backend error.
`none` leaves are the holes left by partitioning. -/
def sliceLeaf (i : Nat) : Option Leaf → AxisVal → Except Err (Option Leaf)
  | none, _ => .ok none
  | some l, .anone => .ok (some l)
  | some (.arr a), .aint k =>
      match normAxis a.ndim k with
      | some k2 =>
          if i < a.shape.getD k2 0 then .ok (some (.arr (a.slice k2 i)))
          else .error .backendErr
      | none => .error .backendErr
  | some (.obj _), .aint _ => .error .backendErr
  | some _, .abad _ => .error .backendErr

/-- All inputs of the batch-mapping primitive sliced at batch index `i`. -/
def sliceInputs (args : PTree (Option Leaf)) (inAxes : PTree AxisVal) (i : Nat) :
    Except Err (PTree (Option Leaf)) :=
  PTree.zipWithE (sliceLeaf i) args inAxes

/-- The mapped-axis size contributed by one input leaf (`none` when the
leaf is not a mapped array). -/
def mappedSize : Option Leaf → AxisVal → Option Nat
  | some (.arr a), .aint k => (normAxis a.ndim k).map fun k2 => a.shape.getD k2 0
  | _, _ => none

/-- The mapped-axis sizes of all mapped input leaves. -/
def axisSizes (args : PTree (Option Leaf)) (inAxes : PTree AxisVal) :
    Except Err (List Nat) := do
  let z ← PTree.zipWithE (fun l ax => .ok (mappedSize l ax)) args inAxes
  .ok (z.leaves.filterMap id)

/-- The batch size used by the batch-mapping primitive: the given
`axis_size` if any (it must agree with every mapped input), else the
common size of the mapped inputs; with no mapped input and no
`axis_size` the backend fails. -/
def inferBatch (axisSize : Option Nat) (args : PTree (Option Leaf))
    (inAxes : PTree AxisVal) : Except Err Nat := do
  let sizes ← axisSizes args inAxes
  match axisSize with
  | some n => if sizes.all (fun s => s = n) then .ok n else .error .backendErr
  | none =>
      match sizes with
      | [] => .error .backendErr
      | s :: rest => if rest.all (fun x => x = s) then .ok s else .error .backendErr

/-- Stack a non-empty list of arrays of a common shape and dtype along a
new leading axis (the backend's fixed convention of returning mapped
outputs with the batch dimension at position 0). -/
def stackArrs : List NDArray → Except Err NDArray
  | [] => .error .backendErr
  | a :: rest =>
      if ∀ b ∈ rest, b.shape = a.shape ∧ b.dtype = a.dtype then
        .ok ⟨(a :: rest).length :: a.shape, a.dtype, (a :: rest).flatMap fun b => b.data⟩
      else .error .backendErr

/-- Start a leafwise stacking accumulator from the first per-index output. -/
def stackLeafInit : Option Leaf → Except Err (Option (List NDArray))
  | some (.arr a) => .ok (some [a])
  | none => .ok none
  | some (.obj _) => .error .backendErr

/-- Extend a leafwise stacking accumulator by one per-index output. -/
def stackLeafAcc : Option (List NDArray) → Option Leaf → Except Err (Option (List NDArray))
  | some xs, some (.arr a) => .ok (some (xs ++ [a]))
  | none, none => .ok none
  | _, _ => .error .backendErr

/-- Stack a completed leafwise accumulator into one output leaf. -/
def stackFinish : Option (List NDArray) → Except Err (Option Leaf)
  | some xs => (stackArrs xs).map fun a => some (.arr a)
  | none => .ok none

/-- Stack a non-empty list of congruent per-index output trees leafwise
along a new leading axis (`none` holes must agree across indices). -/
def stackTrees : List (PTree (Option Leaf)) → Except Err (PTree (Option Leaf))
  | [] => .error .backendErr
  | t :: ts => do
      let acc0 ← t.mapE stackLeafInit
      let acc ← exceptFoldl (fun acc u => PTree.zipWithE stackLeafAcc acc u) acc0 ts
      acc.mapE stackFinish

/-- Executable model of the tracing batch-mapping primitive `jax.vmap`
as invoked by `_VmapWrapper.__call__`: output axes are fixed to
`(0, None)`, i.e. the first output component is stacked leafwise at
position 0 and the second is an untraced side channel returned once.
Tracing a pure function once and executing it per batch index agree, so
the model runs the function at every index and stacks the results. -/
def vmapModel {σ : Type} (f : PTree (Option Leaf) → Except Err (PTree (Option Leaf) × σ))
    (inAxes : PTree AxisVal) (axisSize : Option Nat) (args : PTree (Option Leaf)) :
    Except Err (PTree (Option Leaf) × σ) := do
  let B ← inferBatch axisSize args inAxes
  let results ← exceptMap (fun i => do
      let s ← sliceInputs args inAxes i
      f s) (List.range B)
  match results with
  | [] => .error .backendErr
  | r0 :: rs => do
      let stacked ← stackTrees (r0.1 :: rs.map fun r => r.1)
      .ok (stacked, r0.2)

/-- The side channel of `_fun_wrapper`: the non-mapped output leaves and
the resolved output-axis tree, packaged as an opaque `Static` value. -/
abbrev VStatic := PTree (Option Leaf) × PTree AxisVal

/-- `_fun_wrapper` inside `_VmapWrapper.__call__`: recombine mapped and
broadcast arguments, call the user function, resolve the output axis
spec against the real output, split the output into mapped and
non-mapped parts, and return the mapped part plus the side channel. -/
def vmapFunWrapper (userFn : PTree Leaf → Except Err (PTree Leaf))
    (outSpec : PTree AxisSpec) (staticArgs : PTree (Option Leaf))
    (dynamicArgs : PTree (Option Leaf)) :
    Except Err (PTree (Option Leaf) × VStatic) := do
  let argsC ← combineStrict dynamicArgs staticArgs
  let out ← userFn argsC
  let outAxes ← resolveAxes out outSpec
  let noneMask := outAxes.map AxisVal.isNone
  let pr ← partitionT out noneMask
  .ok (pr.2, (pr.1, outAxes))

/-- `_swapaxes` applied leafwise to the stacked mapped outputs together
with their resolved output axes: each mapped leaf is moved from axis 0
to its requested axis. -/
def swapLeaf : Option Leaf → AxisVal → Except Err (Option Leaf)
  | some (.arr a), .aint k => (swapaxesI a k).map fun b => some (.arr b)
  | none, _ => .ok none
  | some _, _ => .error .backendErr

/-- `_VmapWrapper.__call__`: reject keyword arguments, split the
arguments by whether their *spec* leaf is `None`, resolve input axes,
invoke the batch-mapping primitive on `_fun_wrapper` with output axes
fixed to `(0, None)`, move each mapped output leaf from axis 0 to its
resolved axis, and recombine with the non-mapped outputs.
`numKwargs` is the number of keyword arguments supplied. -/
def vmapCall (userFn : PTree Leaf → Except Err (PTree Leaf))
    (inSpec outSpec : PTree AxisSpec) (axisSize : Option Nat)
    (args : PTree Leaf) (numKwargs : Nat) : Except Err (PTree Leaf) :=
  if numKwargs ≠ 0 then .error .kwargsErr else do
    let unmappedAxis := inSpec.map AxisSpec.isNoneSpec
    let pr ← partitionT args unmappedAxis
    let inAxes ← resolveAxes args inSpec
    let res ← vmapModel (vmapFunWrapper userFn outSpec pr.1) inAxes axisSize pr.2
    let swapped ← PTree.zipWithE swapLeaf res.1 res.2.2
    combineStrict swapped res.2.1

/-- The argument split performed by `_VmapWrapper.__call__` (the mask is
`_is_none` mapped over the *spec* tree): `(static_args, dynamic_args)`;
only `dynamic_args` is passed to the backend primitive, `static_args` is
captured by closure. -/
def vmapSplit (inSpec : PTree AxisSpec) (args : PTree Leaf) :
    Except Err (PTree (Option Leaf) × PTree (Option Leaf)) :=
  partitionT args (inSpec.map AxisSpec.isNoneSpec)

/-- The identity user function on a single argument: `h(x) = x`
(projects the sole component of the argument tuple). -/
def projFirst : PTree Leaf → Except Err (PTree Leaf)
  | .cons x _ => .ok x
  | _ => .error .backendErr

/-- Model of `equinox.filter(pytree, pred)` with a per-leaf predicate. -/
def filterP (t : PTree α) (p : α → Bool) : PTree (Option α) :=
  t.map fun x => if p x then some x else none

/-- A four-element Python tuple as a pytree (the
`(fun, args, maybe_dummy, out_axes)` tuple of `_PmapWrapper._call`). -/
def mkTuple4 (a b c d : PTree α) : PTree α :=
  .cons a (.cons b (.cons c (.cons d .nil)))

/-- Second component of a tuple pytree (`args` in `fun, args, _, _ =
combine(_dynamic, static)`). -/
def tupleSnd : PTree α → Except Err (PTree α)
  | .cons _ (.cons b _) => .ok b
  | _ => .error .structureErr

/-- Shape and dtype signature of an array (`jax.ShapeDtypeStruct`). -/
structure ShapeDtype where
  shape : List Nat
  dtype : Nat
deriving DecidableEq, Repr

/-- The immutable configuration of a `_PmapWrapper` instance, as built by
`filter_pmap`: the wrapped function (as a Lean function plus an opaque
object identity `funId` standing for the Python function object that is
embedded as a static leaf of the cache key), its name pair from
`get_fun_names` (diagnostics only), the axis specs (the `out_axes` spec
additionally carries an opaque identity `outSpecId` standing for the
hashable spec leaves embedded in the key), the axis name and size, and
the remaining backend options. -/
structure PmapConf where
  userFn : PTree Leaf → Except Err (PTree Leaf)
  funId : Nat
  funNames : Nat × Nat
  inSpec : PTree AxisSpec
  outSpec : PTree AxisSpec
  outSpecId : Nat
  axisName : Option Nat
  axisSize : Option Nat
  pmapkwargs : List (String × Nat)

/-- The `maybe_dummy` work-around value: a hashable non-array object when
`axis_size` is `None`, else `np.broadcast_to(0, axis_size)`. -/
def maybeDummy (axisSize : Option Nat) : PTree Leaf :=
  match axisSize with
  | none => .leaf (.obj 0)
  | some n => .leaf (.arr ⟨[n], 0, List.replicate n 0⟩)

/-- The cache key of `_filter_pmap_cache`, i.e. the argument tuple
`(fun_names, leaves, treedef, in_axes, axis_name, axis_size, pmapkwargs)`
of `_PmapWrapper._call`; `(leaves, treedef)` is represented by the
flattened pair `(static, struct)` as the two trees themselves. -/
structure PmapKey where
  funNames : Nat × Nat
  staticTree : PTree (Option Leaf)
  structTree : PTree (Option ShapeDtype)
  inAxes : PTree AxisVal
  axisName : Option Nat
  axisSize : Option Nat
  pmapkwargs : List (String × Nat)
deriving DecidableEq, Repr

/-- Cache-key construction performed by `_PmapWrapper._call` (lines
408-431): resolve the input axes, wrap them as `(None, in_axes, 0,
None)`, partition the `(fun, args, maybe_dummy, out_axes)` tuple into
array (dynamic) and non-array (static) parts, replace every dynamic leaf
by its shape/dtype signature, and assemble the key. -/
def pmapCallKey (conf : PmapConf) (args : PTree Leaf) : Except Err PmapKey := do
  let inAxesArgs ← resolveAxes args conf.inSpec
  let inAxes := mkTuple4 (.leaf .anone) inAxesArgs (.leaf (.aint 0)) (.leaf .anone)
  let tuple := mkTuple4 (.leaf (.obj conf.funId)) args (maybeDummy conf.axisSize)
    (.leaf (.obj conf.outSpecId))
  let pr := partitionP tuple Leaf.isArr
  let structT := pr.1.map fun ol => ol.map fun l => match l with
    | .arr a => ShapeDtype.mk a.shape a.dtype
    | .obj _ => ShapeDtype.mk [] 0
  .ok ⟨conf.funNames, pr.2, structT, inAxes, conf.axisName, conf.axisSize, conf.pmapkwargs⟩

/-- Modelled from the spec: the process-wide memoisation table provided
by `compile_cache` (defined in `equinox/compile_utils.py`, which is not
among the provided sources).  It is an append-only map from cache keys
to compiled artifacts; artifacts are identified here by the value of a
compile counter, so distinct compilations yield distinct identifiers. -/
structure CacheState where
  entries : List (PmapKey × Nat)
deriving DecidableEq

/-- Lookup in the memoisation table. -/
def lookupKey (k : PmapKey) : List (PmapKey × Nat) → Option Nat
  | [] => none
  | (k2, a) :: rest => if k2 = k then some a else lookupKey k rest

/-- Modelled from the spec: one memoised call of `_filter_pmap_cache`.
Returns the artifact for the key, the new table, and the new value of
the compile counter (which increments exactly when a compilation
happened). -/
def cacheCall (st : CacheState) (counter : Nat) (k : PmapKey) :
    Nat × CacheState × Nat :=
  match lookupKey k st.entries with
  | some a => (a, st, counter)
  | none => (counter, ⟨(k, counter) :: st.entries⟩, counter + 1)

/-- The shape/dtype/static signature of a leaf: everything the cache key
retains about it (array data is discarded, non-array values are kept). -/
def leafSig : Leaf → ShapeDtype ⊕ Nat
  | .arr a => .inl ⟨a.shape, a.dtype⟩
  | .obj o => .inr o

/-- Replace the data of every array leaf, keeping shapes and dtypes
(used to state that the cache key ignores array values). -/
def mapArrayData (f : NDArray → List Int) : Leaf → Leaf
  | .arr a => .arr ⟨a.shape, a.dtype, f a⟩
  | .obj o => .obj o

/-- `_check_map_out_axis` of `_filter_pmap_cache`: an integer outside
`[-max_out_size, max_out_size)` raises the axis-bounds ValueError, a
resolved leaf that is neither an integer nor `None` raises the
integers-and-Nones ValueError. -/
def checkMapOutAxis (R : Nat) : AxisVal → Except Err Unit
  | .aint i => if i < -(R : Int) ∨ (R : Int) ≤ i then .error .axisBoundsErr else .ok ()
  | .anone => .ok ()
  | .abad _ => .error .outAxesTypeErr

/-- `jtu.tree_map(_check_map_out_axis, _out_axes)`. -/
def checkOutAxes (R : Nat) (t : PTree AxisVal) : Except Err Unit :=
  (t.mapE (checkMapOutAxis R)).map fun _ => ()

/-- Zip two congruent trees into a tree of pairs. -/
def PTree.zipPair (t : PTree α) (u : PTree β) : Except Err (PTree (α × β)) :=
  match PTree.zipWith Prod.mk t u with
  | some z => .ok z
  | none => .error .structureErr

/-- Bucket `i` of the pmap inner function: the output leaves whose
resolved output axis equals `i` (`filter(_out, _i_axes)` for
`_i_axes = tree_map(lambda a: a == i, _out_axes)`). -/
def bucketOf (z : PTree (Leaf × AxisVal)) (i : Int) : PTree (Option Leaf) :=
  z.map fun la => if la.2 = .aint i then some la.1 else none

/-- `fun_wrapped` built by `_filter_pmap_cache`: recombine the argument
tuple, run the user function, resolve and validate the output axes,
bucket the output leaves by resolved axis into `2 * R` buckets (indexed
left to right by the axes `-R, ..., R - 1`), and split the `None`-axis
leaves into an array part (returned live) and a static part (returned
through the hashable `Static` wrapper). -/
def funWrapped (userFn : PTree Leaf → Except Err (PTree Leaf))
    (outSpec : PTree AxisSpec) (R : Nat)
    (staticT dynamicT : PTree (Option Leaf)) :
    Except Err (List (PTree (Option Leaf)) × PTree (Option Leaf) × PTree (Option Leaf)) := do
  let tuple ← combineStrict dynamicT staticT
  let args ← tupleSnd tuple
  let out ← userFn args
  let outAxes ← resolveAxes out outSpec
  let _ ← checkOutAxes R outAxes
  let z ← PTree.zipPair out outAxes
  let pmapd := (List.range (2 * R)).map fun (j : Nat) => bucketOf z ((j : Int) - (R : Int))
  let nonp := z.map fun la => if la.2 = .anone then some la.1 else none
  let dynNon := nonp.map fun ol => match ol with
    | some (.arr a) => some (Leaf.arr a)
    | _ => none
  let statNon := nonp.map fun ol => match ol with
    | some (.obj o) => some (Leaf.obj o)
    | _ => none
  .ok (pmapd, dynNon, statNon)

/-- The fixed output layout `_filter_pmap_cache` configures the backend
with: `out_axes = (list(range(-max_out_size, max_out_size)), None,
None)` — one fixed axis slot per bucket plus the two non-mapped
channels. -/
def pmapOutAxesSlots (R : Nat) : List (Option Int) × Option Int × Option Int :=
  ((List.range (2 * R)).map fun (j : Nat) => some ((j : Int) - (R : Int)), none, none)

/-- Largest rank among the array leaves of an (abstract) output tree:
`jtu.tree_reduce(lambda x, y: max(x, y.ndim), struct_out, 0)`. -/
def maxOutSize : PTree (Option Leaf) → Nat
  | .leaf (some (.arr a)) => a.ndim
  | .leaf _ => 0
  | .nil => 0
  | .cons hd tl => max (maxOutSize hd) (maxOutSize tl)

/-- `fun_abstract` of `_filter_pmap_cache`: recombine the tuple, run the
user function and keep only the array-like output leaves.  (In this leaf
model array-likeness coincides with being an array.) -/
def funAbstract (userFn : PTree Leaf → Except Err (PTree Leaf))
    (staticT : PTree (Option Leaf)) (dynamicT : PTree (Option Leaf)) :
    Except Err (PTree (Option Leaf) × Unit) := do
  let tuple ← combineStrict dynamicT staticT
  let args ← tupleSnd tuple
  let out ← userFn args
  .ok (filterP out Leaf.isArr, ())

/-- The abstract-evaluation step of `_filter_pmap_cache`: `jax.eval_shape`
of the `jax.vmap`-wrapped `fun_abstract`, then the maximum output leaf
rank.  Abstract evaluation returns the same shapes as running the
function, so it is modelled by the executable `vmapModel`; note the
discovered rank includes the batch dimension the vmap wrapping adds. -/
def computeMaxOutSize (userFn : PTree Leaf → Except Err (PTree Leaf))
    (staticT dynamicT : PTree (Option Leaf)) (inAxes : PTree AxisVal)
    (axisSize : Option Nat) : Except Err Nat := do
  let res ← vmapModel (funAbstract userFn staticT) inAxes axisSize dynamicT
  .ok (maxOutSize res.1)

/-- The compile step performed on a cache miss: discover `R` by abstract
evaluation, then trace `fun_wrapped` once (modelled by running it on the
batch slice at index 0) under the fixed `2 * R + 2`-slot output layout.
Returns `R`, which together with `fun_wrapped` determines the compiled
artifact. -/
def pmapCompile (conf : PmapConf) (staticT dynamicT : PTree (Option Leaf))
    (inAxes : PTree AxisVal) : Except Err Nat := do
  let R ← computeMaxOutSize conf.userFn staticT dynamicT inAxes conf.axisSize
  let _ ← inferBatch conf.axisSize dynamicT inAxes
  let s0 ← sliceInputs dynamicT inAxes 0
  let _ ← funWrapped conf.userFn conf.outSpec R staticT s0
  .ok R

/-- Stack arrays of a common shape and dtype along a new axis inserted at
position `k` (the backend's realisation of a fixed output-axis slot). -/
def stackArrsAt (k : Nat) : List NDArray → Except Err NDArray
  | [] => .error .backendErr
  | a :: rest =>
      if (∀ b ∈ rest, b.shape = a.shape ∧ b.dtype = a.dtype) ∧ k ≤ a.shape.length then
        .ok ⟨a.shape.insertIdx k (a :: rest).length, a.dtype,
          (allIndices (a.shape.insertIdx k (a :: rest).length)).map fun idx =>
            ((a :: rest).getD (idx.getD k 0) ⟨[], 0, []⟩).get (idx.eraseIdx k)⟩
      else .error .backendErr

/-- Finish a leafwise stacking accumulator at the (normalised) axis slot
`slot`. -/
def stackFinishAt (slot : Int) : Option (List NDArray) → Except Err (Option Leaf)
  | some xs =>
      match xs with
      | [] => .error .backendErr
      | a :: rest =>
          match normAxis (a.ndim + 1) slot with
          | some k => (stackArrsAt k (a :: rest)).map fun b => some (.arr b)
          | none => .error .backendErr
  | none => .ok none

/-- Stack a non-empty list of congruent per-index output trees leafwise
at the output-axis slot `slot`. -/
def stackTreesAt (slot : Int) : List (PTree (Option Leaf)) → Except Err (PTree (Option Leaf))
  | [] => .error .backendErr
  | t :: ts => do
      let acc0 ← t.mapE stackLeafInit
      let acc ← exceptFoldl (fun acc u => PTree.zipWithE stackLeafAcc acc u) acc0 ts
      acc.mapE (stackFinishAt slot)

/-- Model of `equinox.combine` on two partitioned trees, leafwise first
non-`None`, keeping `None` where both sides are empty (as
`hashable_combine(dynamic_nonpmapd, static_nonpmapd.value)` does on
trees that still have holes at the mapped positions). -/
def combineOpt (t u : PTree (Option α)) : Except Err (PTree (Option α)) :=
  PTree.zipWithE
    (fun a b => .ok (match a with
      | some x => some x
      | none => b)) t u

/-- `combine(*pmapd, nonpmapd)`: n-ary first-non-`None` combination of
the buckets (in slot order) with the non-mapped outputs. -/
def combineMany : List (PTree (Option α)) → PTree (Option α) → Except Err (PTree (Option α))
  | [], base => .ok base
  | t :: ts, base => do
      let rest ← combineMany ts base
      combineOpt t rest

/-- The execution of the compiled artifact: run `fun_wrapped` on every
batch slice, stack bucket `j` at its fixed slot axis `j - R`, and return
the two non-mapped channels from the first replica (the backend requires
non-mapped outputs to be replicated). -/
def pmapRun (conf : PmapConf) (R : Nat) (staticT dynamicT : PTree (Option Leaf))
    (inAxes : PTree AxisVal) :
    Except Err (List (PTree (Option Leaf)) × PTree (Option Leaf) × PTree (Option Leaf)) := do
  let B ← inferBatch conf.axisSize dynamicT inAxes
  let results ← exceptMap (fun i => do
      let s ← sliceInputs dynamicT inAxes i
      funWrapped conf.userFn conf.outSpec R staticT s) (List.range B)
  match results with
  | [] => .error .backendErr
  | r0 :: rs => do
      let buckets ← exceptMap (fun (j : Nat) =>
          stackTreesAt ((j : Int) - (R : Int))
            ((r0 :: rs).map fun r => r.1.getD j PTree.nil)) (List.range (2 * R))
      .ok (buckets, r0.2.1, r0.2.2)

/-- `_PmapWrapper._call` (execution path): reject keyword arguments,
resolve input axes, build the `(fun, args, maybe_dummy, out_axes)`
tuple, partition it by `is_array`, obtain the compiled artifact (the
cache being a pure memoisation table, the result is that of compiling),
execute it on the dynamic part, recombine the non-mapped channels with
`hashable_combine`, and reassemble the output as `combine(*pmapd,
nonpmapd)` — no axis movement after the backend returns. -/
def pmapCall (conf : PmapConf) (args : PTree Leaf) (numKwargs : Nat) :
    Except Err (PTree Leaf) :=
  if numKwargs ≠ 0 then .error .kwargsErr else do
    let inAxesArgs ← resolveAxes args conf.inSpec
    let inAxes := mkTuple4 (.leaf .anone) inAxesArgs (.leaf (.aint 0)) (.leaf .anone)
    let tuple := mkTuple4 (.leaf (.obj conf.funId)) args (maybeDummy conf.axisSize)
      (.leaf (.obj conf.outSpecId))
    let pr := partitionP tuple Leaf.isArr
    let R ← pmapCompile conf pr.2 pr.1 inAxes
    let res ← pmapRun conf R pr.2 pr.1 inAxes
    let nonp ← combineOpt res.2.1 res.2.2
    let outO ← combineMany res.1 nonp
    outO.mapE fun ol => match ol with
      | some x => (.ok x : Except Err Leaf)
      | none => .error .structureErr

/-- The donation modes accepted by `filter_pmap`. -/
def donateValues : List String := ["arrays", "warn", "none"]

/-- The backend options `filter_pmap` reserves for itself. -/
def reservedPmapKwargs : List String := ["static_broadcasted_argnums", "donate_argnums"]

/-- The lift-time validation performed by `filter_pmap` (before any call
is possible): reserved backend options may not be supplied directly, and
`donate` must be one of the three recognised values; a donating mode
passes `donate_argnums=(0,)` on to the backend. -/
def filterPmapLift (conf : PmapConf) (donate : String) (pmapkwargKeys : List String) :
    Except Err PmapConf :=
  if pmapkwargKeys.contains "static_broadcasted_argnums"
      || pmapkwargKeys.contains "donate_argnums" then .error .reservedKwargErr
  else if donate = "arrays" ∨ donate = "warn" ∨ donate = "none" then
    .ok { conf with pmapkwargs :=
      if donate = "none" then conf.pmapkwargs else conf.pmapkwargs ++ [("donate_argnums", 0)] }
  else .error .donateErr

/-- A wrapper as a Python callable: positional arguments plus a count of
keyword arguments. -/
abbrev CallableM := List (PTree Leaf) → Nat → Except Err (PTree Leaf)

/-- A Python `*args` tuple from a list of positional arguments. -/
def tupleOfList : List (PTree Leaf) → PTree Leaf
  | [] => .nil
  | t :: ts => .cons t (tupleOfList ts)

/-- `_VmapWrapper` as a callable. -/
def vmapWrapperCallable (userFn : PTree Leaf → Except Err (PTree Leaf))
    (inSpec outSpec : PTree AxisSpec) (axisSize : Option Nat) : CallableM :=
  fun argsL k => vmapCall userFn inSpec outSpec axisSize (tupleOfList argsL) k

/-- `_PmapWrapper` as a callable. -/
def pmapWrapperCallable (conf : PmapConf) : CallableM :=
  fun argsL k => pmapCall conf (tupleOfList argsL) k

/-- Model of `jax.tree_util.Partial(f, x)`: a callable that passes `x`
as the first positional argument of every call. -/
def jtuPartialApply (f : CallableM) (x : PTree Leaf) : CallableM :=
  fun argsL k => f (x :: argsL) k

/-- The `__get__` descriptor of both wrappers: accessed through the class
(`instance is None`) it returns the wrapper unchanged; accessed through
an instance it returns `jtu.Partial(self, instance)`. -/
def descriptorGet (self : CallableM) : Option (PTree Leaf) → CallableM
  | none => self
  | some inst => jtuPartialApply self inst

/-- First non-`None` entry of a list of options, with a fallback (the
per-leaf semantics of `combine(*pmapd, nonpmapd)`). -/
def firstSome : List (Option α) → Option α → Option α
  | [], b => b
  | o :: os, b =>
      match o with
      | some x => some x
      | none => firstSome os b

theorem shapeOf_map (f : α → β) (t : PTree α) : (t.map f).shapeOf = t.shapeOf := by
  induction t with
  | leaf x => rfl
  | nil => rfl
  | cons hd tl ih1 ih2 => simp [PTree.map, PTree.shapeOf] at *; exact ⟨ih1, ih2⟩

theorem getPath_map (f : α → β) (t : PTree α) (p : List Bool) :
    (t.map f).getPath p = (t.getPath p).map f := by
  induction t generalizing p with
  | leaf x => cases p with
    | nil => rfl
    | cons b p => cases b <;> rfl
  | nil => cases p with
    | nil => rfl
    | cons b p => cases b <;> rfl
  | cons hd tl ih1 ih2 =>
      cases p with
      | nil => rfl
      | cons b p => cases b <;> simp [PTree.map, PTree.getPath, ih1, ih2]

theorem rangeMap_getD (d : α) : ∀ (D : Nat) (l : List α), D ≤ l.length →
    (List.range D).map (fun j => l.getD j d) = l.take D := by
  intro D
  induction D with
  | zero => intro l _; rfl
  | succ D ih =>
      intro l hD
      have hDlen : D < l.length := hD
      rw [List.range_succ, List.map_append, ih l (Nat.le_of_lt hDlen), List.take_succ]
      simp [List.getD_eq_getElem?_getD, List.getElem?_eq_getElem hDlen]

theorem rangeMap_getD_full (d : α) (l : List α) :
    (List.range l.length).map (fun j => l.getD j d) = l := by
  rw [rangeMap_getD d l.length l (le_refl _), List.take_length]

theorem range_flatMap_mul (P : Nat) : ∀ n : Nat,
    (List.range n).flatMap (fun i => (List.range P).map fun m => i * P + m)
      = List.range (n * P) := by
  intro n
  induction n with
  | zero => simp
  | succ n ih =>
      rw [List.range_succ, List.flatMap_append, ih, Nat.succ_mul, List.range_add]
      simp

theorem allIndices_map_flatIndex : ∀ s : List Nat,
    (allIndices s).map (flatIndex s) = List.range (listProd s) := by
  intro s
  induction s with
  | nil => rfl
  | cons n s ih =>
      have step : ∀ i : Nat,
          ((allIndices s).map (fun idx => i :: idx)).map (flatIndex (n :: s))
            = (List.range (listProd s)).map fun m => i * listProd s + m := by
        intro i
        rw [List.map_map, ← ih, List.map_map]
        rfl
      calc ((List.range n).flatMap fun i => (allIndices s).map fun idx => i :: idx).map
              (flatIndex (n :: s))
          = (List.range n).flatMap
              (fun i => ((allIndices s).map fun idx => i :: idx).map (flatIndex (n :: s))) := by
            rw [List.map_flatMap]
        _ = (List.range n).flatMap
              (fun i => (List.range (listProd s)).map fun m => i * listProd s + m) := by
            simp only [step]
        _ = List.range (n * listProd s) := range_flatMap_mul (listProd s) n
        _ = List.range (listProd (n :: s)) := rfl

theorem getD_drop (l : List Int) (P x : Nat) : (l.drop P).getD x 0 = l.getD (P + x) 0 := by
  simp [List.getD_eq_getElem?_getD, List.getElem?_drop]

theorem range_flatMap_getD (P : Nat) : ∀ (N : Nat) (l : List Int), l.length = N * P →
    (List.range N).flatMap (fun i => (List.range P).map fun m => l.getD (i * P + m) 0)
      = l := by
  intro N
  induction N with
  | zero =>
      intro l hl
      rw [Nat.zero_mul] at hl
      rw [List.length_eq_zero.mp hl]
      rfl
  | succ N ih =>
      intro l hl
      have hP : P ≤ l.length := by
        rw [hl, Nat.succ_mul]
        exact Nat.le_add_left P (N * P)
      have hfirst : (List.range P).map (fun m => l.getD (0 * P + m) 0) = l.take P := by
        rw [← rangeMap_getD 0 P l hP]
        apply List.map_congr_left
        intro m _
        rw [Nat.zero_mul, Nat.zero_add]
      have hdroplen : (l.drop P).length = N * P := by
        rw [List.length_drop, hl, Nat.succ_mul, Nat.add_sub_cancel]
      have hrest : ∀ i : Nat,
          (List.range P).map (fun m => l.getD ((i + 1) * P + m) 0)
            = (List.range P).map fun m => (l.drop P).getD (i * P + m) 0 := by
        intro i
        apply List.map_congr_left
        intro m _
        rw [getD_drop]
        congr 1
        rw [Nat.succ_mul]
        omega
      have hfun : (fun i => (List.range P).map fun m => l.getD (Nat.succ i * P + m) 0)
          = fun i => (List.range P).map fun m => (l.drop P).getD (i * P + m) 0 :=
        funext fun i => hrest i
      rw [List.range_succ_eq_map, List.flatMap_cons, hfirst, List.flatMap_map, hfun,
        ih (l.drop P) hdroplen, List.take_append_drop]

theorem bind_ok_eq (x : α) (f : α → Except Err β) :
    (Bind.bind (Except.ok x) f : Except Err β) = f x := rfl

theorem bind_error_eq (e : Err) (f : α → Except Err β) :
    (Bind.bind (Except.error e) f : Except Err β) = .error e := rfl

theorem zipWithE_total_getPath (f : α → β → γ) :
    ∀ (t : PTree α) (u : PTree β) (w : PTree γ),
      PTree.zipWithE (fun a b => (.ok (f a b) : Except Err γ)) t u = .ok w →
      ∀ (p : List Bool) (x : α), t.getPath p = some x →
        ∃ y : β, u.getPath p = some y ∧ w.getPath p = some (f x y) := by
  intro t
  induction t with
  | leaf a =>
      intro u w h p x hx
      cases u with
      | leaf b =>
          simp only [PTree.zipWithE, bind_ok_eq] at h
          cases p with
          | nil =>
              refine ⟨b, rfl, ?_⟩
              cases hx
              cases h
              rfl
          | cons c p => cases c <;> cases hx
      | nil => cases h
      | cons uh ut => cases h
  | nil =>
      intro u w h p x hx
      cases p <;> cases hx
  | cons hd tl ih1 ih2 =>
      intro u w h p x hx
      cases u with
      | leaf b => cases h
      | nil => cases h
      | cons uh ut =>
          simp only [PTree.zipWithE] at h
          cases hh : PTree.zipWithE (fun a b => (.ok (f a b) : Except Err γ)) hd uh with
          | error e => rw [hh, bind_error_eq] at h; cases h
          | ok w1 =>
              rw [hh, bind_ok_eq] at h
              cases hh2 : PTree.zipWithE (fun a b => (.ok (f a b) : Except Err γ)) tl ut with
              | error e => rw [hh2, bind_error_eq] at h; cases h
              | ok w2 =>
                  rw [hh2, bind_ok_eq] at h
                  cases h
                  cases p with
                  | nil => cases hx
                  | cons c p =>
                      cases c with
                      | false =>
                          obtain ⟨y, hy, hw⟩ := ih1 uh w1 hh p x hx
                          exact ⟨y, hy, hw⟩
                      | true =>
                          obtain ⟨y, hy, hw⟩ := ih2 ut w2 hh2 p x hx
                          exact ⟨y, hy, hw⟩

theorem map_get_allIndices (a : NDArray) (h : a.data.length = listProd a.shape) :
    (allIndices a.shape).map a.get = a.data := by
  have hcomp : (allIndices a.shape).map a.get
      = ((allIndices a.shape).map (flatIndex a.shape)).map fun m => a.data.getD m 0 := by
    rw [List.map_map]
    rfl
  rw [hcomp, allIndices_map_flatIndex, ← h, rangeMap_getD_full]

theorem listSwap_zero_zero (l : List Nat) : listSwap 0 0 l = l := by
  unfold listSwap
  have hcongr : ∀ t ∈ List.range l.length,
      (if t = 0 then l.getD 0 0 else if t = 0 then l.getD 0 0 else l.getD t 0)
        = l.getD t 0 := by
    intro t _
    by_cases ht : t = 0
    · subst ht; simp
    · simp [ht]
  rw [List.map_congr_left hcongr, rangeMap_getD_full]

theorem swapaxes0_zero (a : NDArray) (h : a.data.length = listProd a.shape) :
    a.swapaxes0 0 = a := by
  have hswap : ∀ idx : List Nat, a.get (listSwap 0 0 idx) = a.get idx := by
    intro idx
    rw [listSwap_zero_zero]
  obtain ⟨s, dt, d⟩ := a
  unfold NDArray.swapaxes0
  simp only [listSwap_zero_zero, NDArray.mk.injEq, true_and]
  exact map_get_allIndices ⟨s, dt, d⟩ h

theorem exceptMap_ok {f : α → Except Err β} {g : α → β} :
    ∀ l : List α, (∀ x ∈ l, f x = .ok (g x)) → exceptMap f l = .ok (l.map g) := by
  intro l
  induction l with
  | nil => intro _; rfl
  | cons x xs ih =>
      intro h
      have hx := h x (List.mem_cons_self x xs)
      have hxs := ih fun y hy => h y (List.mem_cons_of_mem x hy)
      simp only [exceptMap, hx, hxs, bind_ok_eq, List.map_cons]

theorem foldStack : ∀ (ts : List NDArray) (xs : List NDArray),
    exceptFoldl (fun acc u => PTree.zipWithE stackLeafAcc acc u) (.leaf (some xs))
      (ts.map fun b => .leaf (some (.arr b))) = .ok (.leaf (some (xs ++ ts))) := by
  intro ts
  induction ts with
  | nil => intro xs; simp [exceptFoldl]
  | cons b ts ih =>
      intro xs
      have hstep : PTree.zipWithE stackLeafAcc (.leaf (some xs)) (.leaf (some (.arr b)))
          = .ok (.leaf (some (xs ++ [b]))) := rfl
      have happ : xs ++ [b] ++ ts = xs ++ b :: ts := by simp
      simp only [List.map_cons, exceptFoldl, hstep, bind_ok_eq, ih (xs ++ [b]), happ]

theorem stack_slices (M D dt : Nat) (data : List Int)
    (hlen : data.length = (M + 1) * D) :
    stackArrs ((List.range (M + 1)).map fun i => (NDArray.mk [M + 1, D] dt data).slice 0 i)
      = .ok (NDArray.mk [M + 1, D] dt data) := by
  have hdata : ((List.range (M + 1)).map
        fun i => (NDArray.mk [M + 1, D] dt data).slice 0 i).flatMap (fun b => b.data)
      = data := by
    rw [List.flatMap_map]
    have hinner : ∀ i : Nat, ((NDArray.mk [M + 1, D] dt data).slice 0 i).data
        = (List.range (listProd [D])).map
            fun m => data.getD (i * listProd [D] + m) 0 := by
      intro i
      have hmm : ((NDArray.mk [M + 1, D] dt data).slice 0 i).data
          = ((allIndices [D]).map (flatIndex [D])).map
              fun m => data.getD (i * listProd [D] + m) 0 := by
        rw [List.map_map]
        rfl
      rw [hmm, allIndices_map_flatIndex]
    rw [funext hinner]
    have hP : listProd [D] = D := by simp [listProd]
    simp only [hP]
    exact range_flatMap_getD D (M + 1) data hlen
  have hL : (List.range (M + 1)).map (fun i => (NDArray.mk [M + 1, D] dt data).slice 0 i)
      = (NDArray.mk [M + 1, D] dt data).slice 0 0
          :: (List.range M).map fun i => (NDArray.mk [M + 1, D] dt data).slice 0 (i + 1) := by
    rw [List.range_succ_eq_map, List.map_cons, List.map_map]
    rfl
  rw [hL]
  have hcond : ∀ b ∈ (List.range M).map
        (fun i => (NDArray.mk [M + 1, D] dt data).slice 0 (i + 1)),
      b.shape = ((NDArray.mk [M + 1, D] dt data).slice 0 0).shape
        ∧ b.dtype = ((NDArray.mk [M + 1, D] dt data).slice 0 0).dtype := by
    intro b hb
    obtain ⟨i, _, rfl⟩ := List.mem_map.mp hb
    exact ⟨rfl, rfl⟩
  rw [stackArrs, if_pos hcond]
  have hlen2 : ((NDArray.mk [M + 1, D] dt data).slice 0 0
      :: (List.range M).map fun i => (NDArray.mk [M + 1, D] dt data).slice 0 (i + 1)).length
        = M + 1 := by
    simp
  congr 1
  simp only [NDArray.mk.injEq]
  refine ⟨?_, rfl, ?_⟩
  · rw [hlen2]
    exact rfl
  · rw [← hL]
    exact hdata

theorem vmapModel_identity_run (M D dt : Nat) (data : List Int)
    (hlen : data.length = (M + 1) * D) :
    vmapModel
        (vmapFunWrapper projFirst (PTree.leaf (AxisSpec.intSpec 1))
          (PTree.cons (PTree.leaf none) PTree.nil))
        (PTree.cons (PTree.leaf (AxisVal.aint 0)) PTree.nil) none
        (PTree.cons (PTree.leaf (some (Leaf.arr (NDArray.mk [M + 1, D] dt data)))) PTree.nil)
      = .ok (PTree.leaf (some (Leaf.arr (NDArray.mk [M + 1, D] dt data))),
          (PTree.leaf none, PTree.leaf (AxisVal.aint 1))) := by
  have h3 : inferBatch none
      (PTree.cons (PTree.leaf (some (Leaf.arr (NDArray.mk [M + 1, D] dt data)))) PTree.nil)
      (PTree.cons (PTree.leaf (AxisVal.aint 0)) PTree.nil) = .ok (M + 1) := rfl
  have hsliceRun : ∀ i ∈ List.range (M + 1),
      (do
        let s ← sliceInputs
          (PTree.cons (PTree.leaf (some (Leaf.arr (NDArray.mk [M + 1, D] dt data)))) PTree.nil)
          (PTree.cons (PTree.leaf (AxisVal.aint 0)) PTree.nil) i
        vmapFunWrapper projFirst (PTree.leaf (AxisSpec.intSpec 1))
          (PTree.cons (PTree.leaf none) PTree.nil) s)
      = .ok ((PTree.leaf (some (Leaf.arr ((NDArray.mk [M + 1, D] dt data).slice 0 i)))
              : PTree (Option Leaf)),
             ((PTree.leaf none : PTree (Option Leaf)),
              (PTree.leaf (AxisVal.aint 1) : PTree AxisVal))) := by
    intro i hi
    have hi2 : i < M + 1 := List.mem_range.mp hi
    have hsl : sliceLeaf i (some (Leaf.arr (NDArray.mk [M + 1, D] dt data)))
        (AxisVal.aint 0)
        = if i < M + 1
          then .ok (some (Leaf.arr ((NDArray.mk [M + 1, D] dt data).slice 0 i)))
          else .error .backendErr := rfl
    have hslice : sliceInputs
        (PTree.cons (PTree.leaf (some (Leaf.arr (NDArray.mk [M + 1, D] dt data)))) PTree.nil)
        (PTree.cons (PTree.leaf (AxisVal.aint 0)) PTree.nil) i
        = .ok (PTree.cons
            (PTree.leaf (some (Leaf.arr ((NDArray.mk [M + 1, D] dt data).slice 0 i))))
            PTree.nil) := by
      simp only [sliceInputs, PTree.zipWithE, hsl, if_pos hi2, bind_ok_eq]
    simp only [hslice, bind_ok_eq]
    rfl
  have hrun := exceptMap_ok (List.range (M + 1)) hsliceRun
  have hcons : (List.range (M + 1)).map
      (fun i => ((PTree.leaf (some (Leaf.arr ((NDArray.mk [M + 1, D] dt data).slice 0 i)))
            : PTree (Option Leaf)),
          ((PTree.leaf none : PTree (Option Leaf)),
           (PTree.leaf (AxisVal.aint 1) : PTree AxisVal))))
      = ((PTree.leaf (some (Leaf.arr ((NDArray.mk [M + 1, D] dt data).slice 0 0)))
            : PTree (Option Leaf)),
         ((PTree.leaf none : PTree (Option Leaf)),
          (PTree.leaf (AxisVal.aint 1) : PTree AxisVal)))
        :: (List.range M).map
          (fun i => ((PTree.leaf (some (Leaf.arr ((NDArray.mk [M + 1, D] dt data).slice 0 (i + 1))))
              : PTree (Option Leaf)),
            ((PTree.leaf none : PTree (Option Leaf)),
             (PTree.leaf (AxisVal.aint 1) : PTree AxisVal)))) := by
    rw [List.range_succ_eq_map, List.map_cons, List.map_map]
    rfl
  have hstack : stackTrees
      ((PTree.leaf (some (Leaf.arr ((NDArray.mk [M + 1, D] dt data).slice 0 0)))
          : PTree (Option Leaf))
        :: (List.range M).map
          (fun i => (PTree.leaf (some (Leaf.arr ((NDArray.mk [M + 1, D] dt data).slice 0 (i + 1))))
            : PTree (Option Leaf))))
      = .ok (PTree.leaf (some (Leaf.arr (NDArray.mk [M + 1, D] dt data)))) := by
    have hmapform : (List.range M).map
        (fun i => (PTree.leaf (some (Leaf.arr ((NDArray.mk [M + 1, D] dt data).slice 0 (i + 1))))
          : PTree (Option Leaf)))
        = ((List.range M).map fun i => (NDArray.mk [M + 1, D] dt data).slice 0 (i + 1)).map
            fun b => (PTree.leaf (some (Leaf.arr b)) : PTree (Option Leaf)) := by
      rw [List.map_map]
      rfl
    have hfold := foldStack
      ((List.range M).map fun i => (NDArray.mk [M + 1, D] dt data).slice 0 (i + 1))
      [(NDArray.mk [M + 1, D] dt data).slice 0 0]
    have hLrange : (NDArray.mk [M + 1, D] dt data).slice 0 0
        :: (List.range M).map (fun i => (NDArray.mk [M + 1, D] dt data).slice 0 (i + 1))
        = (List.range (M + 1)).map fun i => (NDArray.mk [M + 1, D] dt data).slice 0 i := by
      rw [List.range_succ_eq_map, List.map_cons, List.map_map]
      rfl
    have hfin : stackFinish (some ((List.range (M + 1)).map
        fun i => (NDArray.mk [M + 1, D] dt data).slice 0 i))
        = .ok (some (Leaf.arr (NDArray.mk [M + 1, D] dt data))) := by
      show (stackArrs ((List.range (M + 1)).map
          fun i => (NDArray.mk [M + 1, D] dt data).slice 0 i)).map
            (fun a => some (Leaf.arr a))
        = _
      rw [stack_slices M D dt data hlen]
      rfl
    simp only [stackTrees, hmapform, bind_ok_eq]
    have hacc0 : (PTree.leaf (some (Leaf.arr ((NDArray.mk [M + 1, D] dt data).slice 0 0)))
        : PTree (Option Leaf)).mapE stackLeafInit
        = .ok (PTree.leaf (some [(NDArray.mk [M + 1, D] dt data).slice 0 0])) := rfl
    simp only [hacc0, bind_ok_eq, hfold, List.singleton_append, hLrange]
    show (PTree.leaf (some ((List.range (M + 1)).map
        fun i => (NDArray.mk [M + 1, D] dt data).slice 0 i))
        : PTree (Option (List NDArray))).mapE stackFinish = _
    simp only [PTree.mapE, hfin, bind_ok_eq]
  rw [vmapModel]
  simp only [h3, bind_ok_eq, hrun, hcons, List.map_map, Function.comp_def, hstack]

/-- C6: for every value tree and every scalar axis spec `s` that is `None`
or an integer, axis resolution returns a tree congruent to the value tree
with `s` at every leaf of the corresponding subtree; `None` is a valid
terminal spec leaf (it broadcasts like an integer does), not an absent
entry. -/
theorem resolve_scalar_broadcast (t : PTree Leaf) (k : Int) :
    resolveAxes t (.leaf .noneSpec) = .ok (t.map fun _ => .anone)
    ∧ resolveAxes t (.leaf (.intSpec k)) = .ok (t.map fun _ => .aint k)
    ∧ (t.map fun _ => AxisVal.anone).shapeOf = t.shapeOf
    ∧ (t.map fun _ => AxisVal.aint k).shapeOf = t.shapeOf
    ∧ (∀ p x, t.getPath p = some x →
        (t.map fun _ => AxisVal.anone).getPath p = some .anone
        ∧ (t.map fun _ => AxisVal.aint k).getPath p = some (.aint k)) := by
  refine ⟨rfl, rfl, shapeOf_map _ t, shapeOf_map _ t, ?_⟩
  intro p x hx
  rw [getPath_map, getPath_map, hx]
  exact ⟨rfl, rfl⟩

/-- C2: on the `filter_vmap` path the backend stacks every mapped output
leaf at position 0 and the wrapper then moves it from axis 0 to the
resolved output axis (an axis of 0 leaves the array unchanged); in
particular lifting the identity with `out_axes = 1` maps an array of
shape `(N, D)` to its axes-swapped form of shape `(D, N)`. -/
theorem vmap_output_axis_movement (N D dt : Nat) (data : List Int)
    (hN : 0 < N) (hlen : data.length = N * D) :
    vmapCall projFirst (.leaf (.callableSpec (ifArrayF 0))) (.leaf (.intSpec 1)) none
        (.cons (.leaf (.arr ⟨[N, D], dt, data⟩)) .nil) 0
      = .ok (.leaf (.arr ((NDArray.mk [N, D] dt data).swapaxes0 1)))
    ∧ ((NDArray.mk [N, D] dt data).swapaxes0 1).shape = [D, N]
    ∧ (∀ b : NDArray, 0 < b.ndim → b.data.length = listProd b.shape →
        swapaxesI b 0 = .ok b) := by
  obtain ⟨M, rfl⟩ : ∃ M, N = M + 1 := ⟨N - 1, (Nat.succ_pred_eq_of_pos hN).symm⟩
  refine ⟨?_, ?_, ?_⟩
  · rw [vmapCall, if_neg (fun h => h rfl)]
    have h1 : partitionT
        (PTree.cons (PTree.leaf (Leaf.arr (NDArray.mk [M + 1, D] dt data))) PTree.nil)
        ((PTree.leaf (AxisSpec.callableSpec (ifArrayF 0))).map AxisSpec.isNoneSpec)
        = .ok (PTree.cons (PTree.leaf none) PTree.nil,
            PTree.cons (PTree.leaf (some (Leaf.arr (NDArray.mk [M + 1, D] dt data))))
              PTree.nil) := rfl
    have h2 : resolveAxes
        (PTree.cons (PTree.leaf (Leaf.arr (NDArray.mk [M + 1, D] dt data))) PTree.nil)
        (PTree.leaf (AxisSpec.callableSpec (ifArrayF 0)))
        = .ok (PTree.cons (PTree.leaf (AxisVal.aint 0)) PTree.nil) := rfl
    have hmodel := vmapModel_identity_run M D dt data hlen
    have hswap : PTree.zipWithE swapLeaf
        (PTree.leaf (some (Leaf.arr (NDArray.mk [M + 1, D] dt data))))
        (PTree.leaf (AxisVal.aint 1))
        = .ok (PTree.leaf (some (Leaf.arr ((NDArray.mk [M + 1, D] dt data).swapaxes0 1)))) :=
      rfl
    have hcomb : combineStrict
        (PTree.leaf (some (Leaf.arr ((NDArray.mk [M + 1, D] dt data).swapaxes0 1))))
        (PTree.leaf (none : Option Leaf))
        = .ok (PTree.leaf (Leaf.arr ((NDArray.mk [M + 1, D] dt data).swapaxes0 1))) := rfl
    simp only [h1, bind_ok_eq, h2, hmodel, hswap, hcomb]
  · exact rfl
  · intro b hnd hb
    have h0 : normAxis b.ndim 0 = some 0 := by
      unfold normAxis
      rw [if_pos (le_refl (0 : Int)), if_pos (by exact_mod_cast hnd)]
      rfl
    simp only [swapaxesI, h0, swapaxes0_zero b hb]

/-- C3 (amended): `_VmapWrapper.__call__` partitions the argument tree by
the axis *spec*, not by the resolved axes: exactly the leaves lying under
a spec leaf that is `None` go to the closure-captured static
sub-structure (with a hole in `dynamic_args`), and every other leaf —
including a leaf whose callable spec resolves to `None` — is placed in
`dynamic_args`, the structure passed to the backend primitive as its
input (mapped when its resolved axis is an integer, broadcast when it
resolves to `None`). -/
theorem vmap_partition_by_spec (inSpec : PTree AxisSpec) (args : PTree Leaf)
    (mm : PTree Bool) (staticArgs dynamicArgs : PTree (Option Leaf))
    (hmm : broadcastUpTo (inSpec.map AxisSpec.isNoneSpec) args = .ok mm)
    (hsplit : vmapSplit inSpec args = .ok (staticArgs, dynamicArgs)) :
    ∀ (p : List Bool) (x : Leaf), args.getPath p = some x →
      (mm.getPath p = some true →
        staticArgs.getPath p = some (some x) ∧ dynamicArgs.getPath p = some none)
      ∧ (mm.getPath p = some false →
        staticArgs.getPath p = some none ∧ dynamicArgs.getPath p = some (some x)) := by
  simp only [vmapSplit, partitionT, hmm, bind_ok_eq] at hsplit
  cases hk : PTree.zipWithE
      (fun x b => (.ok (if b then some x else none) : Except Err (Option Leaf))) args mm with
  | error e => rw [hk, bind_error_eq] at hsplit; cases hsplit
  | ok keep =>
      rw [hk, bind_ok_eq] at hsplit
      cases hd : PTree.zipWithE
          (fun x b => (.ok (if b then none else some x) : Except Err (Option Leaf))) args mm with
      | error e => rw [hd, bind_error_eq] at hsplit; cases hsplit
      | ok drop =>
          rw [hd, bind_ok_eq] at hsplit
          cases hsplit
          intro p x hx
          obtain ⟨y1, hy1, hw1⟩ :=
            zipWithE_total_getPath (fun x b => if b then some x else none) args mm _ hk p x hx
          obtain ⟨y2, hy2, hw2⟩ :=
            zipWithE_total_getPath (fun x b => if b then none else some x) args mm _ hd p x hx
          constructor
          · intro htrue
            rw [htrue] at hy1 hy2
            cases hy1
            cases hy2
            simp only [if_pos rfl] at hw1 hw2
            exact ⟨hw1, hw2⟩
          · intro hfalse
            rw [hfalse] at hy1 hy2
            cases hy1
            cases hy2
            simp at hw1 hw2
            exact ⟨hw1, hw2⟩

theorem vmap_partition_by_spec_witness :
    vmapSplit
        (.cons (.leaf .noneSpec) (.cons (.leaf (.callableSpec (ifArrayF 0))) .nil))
        (.cons (.leaf (.obj 1)) (.cons (.leaf (.obj 2)) .nil))
      = .ok (.cons (.leaf (some (.obj 1))) (.cons (.leaf none) .nil),
             .cons (.leaf none) (.cons (.leaf (some (.obj 2))) .nil))
    ∧ (PTree.cons (PTree.leaf (some (Leaf.obj 1))) (.cons (.leaf none) .nil)).getPath [false]
        = some (some (.obj 1)) := by
  have h := vmap_partition_by_spec
    (.cons (.leaf .noneSpec) (.cons (.leaf (.callableSpec (ifArrayF 0))) .nil))
    (.cons (.leaf (.obj 1)) (.cons (.leaf (.obj 2)) .nil))
    (.cons (.leaf true) (.cons (.leaf false) .nil))
    (.cons (.leaf (some (.obj 1))) (.cons (.leaf none) .nil))
    (.cons (.leaf none) (.cons (.leaf (some (.obj 2))) .nil))
    (by decide) (by decide)
  exact ⟨by decide, (h [false] (.obj 1) (by decide)).1 (by decide) |>.1⟩

/-- C3 counterexample: with a single non-array argument and the default
callable spec `if_array(0)`, the resolved input axis of the leaf is
`None`, yet the leaf is placed in `dynamic_args` (the structure handed
to the backend primitive as its input) rather than in the
closure-captured static part — the partition mask looks only at the
*spec* leaf, which is a callable, not `None`.  The full call succeeds
with the leaf broadcast through the backend. -/
theorem vmap_partition_counterexample :
    resolveAxes (.cons (.leaf (.obj 7)) .nil) (.leaf (.callableSpec (ifArrayF 0)))
      = .ok (.cons (.leaf .anone) .nil)
    ∧ vmapSplit (.leaf (.callableSpec (ifArrayF 0))) (.cons (.leaf (.obj 7)) .nil)
      = .ok (.cons (.leaf none) .nil, .cons (.leaf (some (.obj 7))) .nil)
    ∧ (PTree.cons (PTree.leaf (some (Leaf.obj 7))) PTree.nil).getPath [false]
        = some (some (.obj 7))
    ∧ (PTree.cons (PTree.leaf (none : Option Leaf)) PTree.nil).getPath [false] = some none
    ∧ vmapCall projFirst (.leaf (.callableSpec (ifArrayF 0)))
        (.leaf (.callableSpec (ifArrayF 0))) (some 1) (.cons (.leaf (.obj 7)) .nil) 0
      = .ok (.leaf (.obj 7)) := by
  refine ⟨rfl, rfl, rfl, rfl, by decide⟩

theorem vmap_output_axis_movement_witness :
    vmapCall projFirst (.leaf (.callableSpec (ifArrayF 0))) (.leaf (.intSpec 1)) none
        (.cons (.leaf (.arr ⟨[2, 3], 0, [1, 2, 3, 4, 5, 6]⟩)) .nil) 0
      = .ok (.leaf (.arr ⟨[3, 2], 0, [1, 4, 2, 5, 3, 6]⟩))
    ∧ swapaxesI ⟨[2], 0, [9, 9]⟩ 0 = .ok ⟨[2], 0, [9, 9]⟩ := by
  have h := vmap_output_axis_movement 2 3 0 [1, 2, 3, 4, 5, 6] (by decide) (by decide)
  exact ⟨h.1.trans (by decide), h.2.2 ⟨[2], 0, [9, 9]⟩ (by decide) (by decide)⟩

theorem resolve_scalar_broadcast_witness :
    resolveAxes (.cons (.leaf (.obj 3)) (.cons (.leaf (.arr ⟨[2], 0, [5, 7]⟩)) .nil))
        (.leaf (.intSpec 2))
      = .ok (.cons (.leaf (.aint 2)) (.cons (.leaf (.aint 2)) .nil)) :=
  (resolve_scalar_broadcast
    (.cons (.leaf (.obj 3)) (.cons (.leaf (.arr ⟨[2], 0, [5, 7]⟩)) .nil)) 2).2.1

/-- C7: an axis-spec leaf that is not `None`, not an integer and not a
callable makes `_resolve_axis` (and hence `_resolve_axes`, whatever the
value tree, also when the bad leaf sits beside well-formed siblings)
raise the axis-spec configuration error. -/
theorem resolve_invalid_spec_error (c : Nat) (t : PTree Leaf) :
    resolveAxis (.invalidSpec c) t = .error .axisSpecErr
    ∧ resolveAxes t (.leaf (.invalidSpec c)) = .error .axisSpecErr
    ∧ (∀ rest t1 t2, resolveAxes (.cons t1 t2) (.cons (.leaf (.invalidSpec c)) rest)
        = .error .axisSpecErr) := by
  refine ⟨rfl, rfl, ?_⟩
  intro rest t1 t2
  rfl

theorem ptree_map_map (f : β → γ) (g : α → β) (t : PTree α) :
    (t.map g).map f = t.map fun x => f (g x) := by
  induction t with
  | leaf x => rfl
  | nil => rfl
  | cons hd tl ih1 ih2 => simp [PTree.map, ih1, ih2]

theorem pmapCallKey_congr (conf : PmapConf) (a1 a2 : PTree Leaf)
    (hsig : a1.map leafSig = a2.map leafSig)
    (hres : resolveAxes a1 conf.inSpec = resolveAxes a2 conf.inSpec) :
    pmapCallKey conf a1 = pmapCallKey conf a2 := by
  have hstatic : a1.map (fun x => if Leaf.isArr x then none else some x)
      = a2.map fun x => if Leaf.isArr x then none else some x := by
    have hfact : (fun x : Leaf => if Leaf.isArr x then none else some x)
        = fun x : Leaf =>
            (fun s : ShapeDtype ⊕ Nat =>
              match s with
              | .inl _ => none
              | .inr o => some (Leaf.obj o)) (leafSig x) := by
      funext l
      cases l <;> rfl
    have e1 := ptree_map_map
      (fun s : ShapeDtype ⊕ Nat =>
        match s with
        | .inl _ => none
        | .inr o => some (Leaf.obj o)) leafSig a1
    have e2 := ptree_map_map
      (fun s : ShapeDtype ⊕ Nat =>
        match s with
        | .inl _ => none
        | .inr o => some (Leaf.obj o)) leafSig a2
    rw [hfact, ← e1, ← e2, hsig]
  have hstruct : (a1.map fun x => if Leaf.isArr x then some x else none).map
        (fun ol => ol.map fun l => match l with
          | .arr a => ShapeDtype.mk a.shape a.dtype
          | .obj _ => ShapeDtype.mk [] 0)
      = (a2.map fun x => if Leaf.isArr x then some x else none).map
        (fun ol => ol.map fun l => match l with
          | .arr a => ShapeDtype.mk a.shape a.dtype
          | .obj _ => ShapeDtype.mk [] 0) := by
    rw [ptree_map_map, ptree_map_map]
    have hfact2 : (fun x : Leaf => Option.map (fun l => match l with
          | Leaf.arr a => ShapeDtype.mk a.shape a.dtype
          | Leaf.obj _ => ShapeDtype.mk [] 0)
          (if Leaf.isArr x then some x else none))
        = fun x : Leaf =>
            (fun s : ShapeDtype ⊕ Nat =>
              match s with
              | .inl sd => some sd
              | .inr _ => none) (leafSig x) := by
      funext l
      cases l <;> rfl
    have e1 := ptree_map_map
      (fun s : ShapeDtype ⊕ Nat =>
        match s with
        | .inl sd => some sd
        | .inr _ => none) leafSig a1
    have e2 := ptree_map_map
      (fun s : ShapeDtype ⊕ Nat =>
        match s with
        | .inl sd => some sd
        | .inr _ => none) leafSig a2
    rw [hfact2, ← e1, ← e2, hsig]
  unfold pmapCallKey
  rw [hres]
  cases hr : resolveAxes a2 conf.inSpec with
  | error e => rfl
  | ok inAx =>
      simp only [bind_ok_eq, partitionP, mkTuple4, PTree.map]
      rw [hstatic, hstruct]

/-- C1 (with the `compile_cache` table modelled from the spec): the
compiled-entry cache is a pure memoization table over the key built by
`_PmapWrapper._call`.  Two successive calls whose keys are equal make
the second call return the artifact of the first with no new
compilation (from any cache state); two calls from a fresh cache whose
keys differ both compile, producing distinct artifacts; and the key
depends on the arguments only through their static values, their
shape/dtype signatures, and the resolved input axes — in particular,
changing only array data never forces a recompilation. -/
theorem pmap_cache_memoization (conf : PmapConf) (a1 a2 : PTree Leaf)
    (k1 k2 : PmapKey) (st : CacheState) (c : Nat)
    (h1 : pmapCallKey conf a1 = .ok k1) (h2 : pmapCallKey conf a2 = .ok k2) :
    (k1 = k2 →
      (cacheCall (cacheCall st c k1).2.1 (cacheCall st c k1).2.2 k2).1
          = (cacheCall st c k1).1
        ∧ (cacheCall (cacheCall st c k1).2.1 (cacheCall st c k1).2.2 k2).2.2
          = (cacheCall st c k1).2.2)
    ∧ (k1 ≠ k2 →
      (cacheCall (cacheCall ⟨[]⟩ c k1).2.1 (cacheCall ⟨[]⟩ c k1).2.2 k2).2.2 = c + 2
        ∧ (cacheCall (cacheCall ⟨[]⟩ c k1).2.1 (cacheCall ⟨[]⟩ c k1).2.2 k2).1
          ≠ (cacheCall ⟨[]⟩ c k1).1)
    ∧ (∀ a3 : PTree Leaf, a1.map leafSig = a3.map leafSig →
        resolveAxes a1 conf.inSpec = resolveAxes a3 conf.inSpec →
        pmapCallKey conf a3 = .ok k1) := by
  refine ⟨?_, ?_, ?_⟩
  · intro hk
    subst hk
    unfold cacheCall
    cases hl : lookupKey k1 st.entries with
    | some a => simp [hl]
    | none => simp [hl, lookupKey]
  · intro hk
    unfold cacheCall
    simp [lookupKey, hk]
  · intro a3 hsig hres
    rw [← pmapCallKey_congr conf a1 a3 hsig hres]
    exact h1

theorem pmap_cache_memoization_witness :
    (cacheCall
        (cacheCall ⟨[]⟩ 0 ⟨(1, 1),
          mkTuple4 (.leaf (some (.obj 1))) (.leaf (some (.obj 5)))
            (.leaf (some (.obj 0))) (.leaf (some (.obj 2))),
          mkTuple4 (.leaf none) (.leaf none) (.leaf none) (.leaf none),
          mkTuple4 (.leaf .anone) (.leaf .anone) (.leaf (.aint 0)) (.leaf .anone),
          none, none, []⟩).2.1
        (cacheCall ⟨[]⟩ 0 ⟨(1, 1),
          mkTuple4 (.leaf (some (.obj 1))) (.leaf (some (.obj 5)))
            (.leaf (some (.obj 0))) (.leaf (some (.obj 2))),
          mkTuple4 (.leaf none) (.leaf none) (.leaf none) (.leaf none),
          mkTuple4 (.leaf .anone) (.leaf .anone) (.leaf (.aint 0)) (.leaf .anone),
          none, none, []⟩).2.2
        ⟨(1, 1),
          mkTuple4 (.leaf (some (.obj 1))) (.leaf (some (.obj 5)))
            (.leaf (some (.obj 0))) (.leaf (some (.obj 2))),
          mkTuple4 (.leaf none) (.leaf none) (.leaf none) (.leaf none),
          mkTuple4 (.leaf .anone) (.leaf .anone) (.leaf (.aint 0)) (.leaf .anone),
          none, none, []⟩).2.2
      = (cacheCall ⟨[]⟩ 0 ⟨(1, 1),
          mkTuple4 (.leaf (some (.obj 1))) (.leaf (some (.obj 5)))
            (.leaf (some (.obj 0))) (.leaf (some (.obj 2))),
          mkTuple4 (.leaf none) (.leaf none) (.leaf none) (.leaf none),
          mkTuple4 (.leaf .anone) (.leaf .anone) (.leaf (.aint 0)) (.leaf .anone),
          none, none, []⟩).2.2
    ∧ (cacheCall
        (cacheCall ⟨[]⟩ 0 ⟨(1, 1),
          mkTuple4 (.leaf (some (.obj 1))) (.leaf (some (.obj 5)))
            (.leaf (some (.obj 0))) (.leaf (some (.obj 2))),
          mkTuple4 (.leaf none) (.leaf none) (.leaf none) (.leaf none),
          mkTuple4 (.leaf .anone) (.leaf .anone) (.leaf (.aint 0)) (.leaf .anone),
          none, none, []⟩).2.1
        (cacheCall ⟨[]⟩ 0 ⟨(1, 1),
          mkTuple4 (.leaf (some (.obj 1))) (.leaf (some (.obj 5)))
            (.leaf (some (.obj 0))) (.leaf (some (.obj 2))),
          mkTuple4 (.leaf none) (.leaf none) (.leaf none) (.leaf none),
          mkTuple4 (.leaf .anone) (.leaf .anone) (.leaf (.aint 0)) (.leaf .anone),
          none, none, []⟩).2.2
        ⟨(1, 1),
          mkTuple4 (.leaf (some (.obj 1))) (.leaf (some (.obj 6)))
            (.leaf (some (.obj 0))) (.leaf (some (.obj 2))),
          mkTuple4 (.leaf none) (.leaf none) (.leaf none) (.leaf none),
          mkTuple4 (.leaf .anone) (.leaf .anone) (.leaf (.aint 0)) (.leaf .anone),
          none, none, []⟩).2.2 = 2 := by
  have hsame := pmap_cache_memoization
    ⟨projFirst, 1, (1, 1), .leaf .noneSpec, .leaf .noneSpec, 2, none, none, []⟩
    (.leaf (.obj 5)) (.leaf (.obj 5))
    ⟨(1, 1),
      mkTuple4 (.leaf (some (.obj 1))) (.leaf (some (.obj 5)))
        (.leaf (some (.obj 0))) (.leaf (some (.obj 2))),
      mkTuple4 (.leaf none) (.leaf none) (.leaf none) (.leaf none),
      mkTuple4 (.leaf .anone) (.leaf .anone) (.leaf (.aint 0)) (.leaf .anone),
      none, none, []⟩
    ⟨(1, 1),
      mkTuple4 (.leaf (some (.obj 1))) (.leaf (some (.obj 5)))
        (.leaf (some (.obj 0))) (.leaf (some (.obj 2))),
      mkTuple4 (.leaf none) (.leaf none) (.leaf none) (.leaf none),
      mkTuple4 (.leaf .anone) (.leaf .anone) (.leaf (.aint 0)) (.leaf .anone),
      none, none, []⟩
    ⟨[]⟩ 0 (by decide) (by decide)
  have hdiff := pmap_cache_memoization
    ⟨projFirst, 1, (1, 1), .leaf .noneSpec, .leaf .noneSpec, 2, none, none, []⟩
    (.leaf (.obj 5)) (.leaf (.obj 6))
    ⟨(1, 1),
      mkTuple4 (.leaf (some (.obj 1))) (.leaf (some (.obj 5)))
        (.leaf (some (.obj 0))) (.leaf (some (.obj 2))),
      mkTuple4 (.leaf none) (.leaf none) (.leaf none) (.leaf none),
      mkTuple4 (.leaf .anone) (.leaf .anone) (.leaf (.aint 0)) (.leaf .anone),
      none, none, []⟩
    ⟨(1, 1),
      mkTuple4 (.leaf (some (.obj 1))) (.leaf (some (.obj 6)))
        (.leaf (some (.obj 0))) (.leaf (some (.obj 2))),
      mkTuple4 (.leaf none) (.leaf none) (.leaf none) (.leaf none),
      mkTuple4 (.leaf .anone) (.leaf .anone) (.leaf (.aint 0)) (.leaf .anone),
      none, none, []⟩
    ⟨[]⟩ 0 (by decide) (by decide)
  exact ⟨(hsame.1 rfl).2, (hdiff.2.1 (by decide)).1⟩

theorem firstSome_append : ∀ (xs ys : List (Option α)) (b : Option α),
    firstSome (xs ++ ys) b = firstSome xs (firstSome ys b) := by
  intro xs
  induction xs with
  | nil => intro ys b; rfl
  | cons o os ih =>
      intro ys b
      cases o with
      | some x => rfl
      | none => simp [firstSome, ih]

theorem firstSome_all_none : ∀ (xs : List (Option α)) (b : Option α),
    (∀ o ∈ xs, o = none) → firstSome xs b = b := by
  intro xs
  induction xs with
  | nil => intro b _; rfl
  | cons o os ih =>
      intro b h
      have ho := h o (List.mem_cons_self o os)
      subst ho
      exact ih b fun o2 h2 => h o2 (List.mem_cons_of_mem _ h2)

theorem firstSome_range_single (l : α) : ∀ (n j0 : Nat), j0 < n → ∀ b : Option α,
    firstSome ((List.range n).map fun j => if j = j0 then some l else none) b = some l := by
  intro n
  induction n with
  | zero => intro j0 hj; omega
  | succ n ih =>
      intro j0 hj b
      rw [List.range_succ, List.map_append, firstSome_append]
      by_cases h : j0 < n
      · exact ih j0 h _
      · have hj0 : j0 = n := by omega
        subst hj0
        rw [firstSome_all_none]
        · simp [firstSome]
        · intro o ho
          obtain ⟨j, hj2, rfl⟩ := List.mem_map.mp ho
          have : j ≠ j0 := by
            have := List.mem_range.mp hj2
            omega
          simp [this]

theorem getD_map_range (f : Nat → α) (n j : Nat) (hj : j < n) (d : α) :
    ((List.range n).map f).getD j d = f j := by
  rw [List.getD_eq_getElem?_getD, List.getElem?_map, List.getElem?_range hj]
  rfl

theorem ptree_leaves_map (f : α → β) (t : PTree α) :
    (t.map f).leaves = t.leaves.map f := by
  induction t with
  | leaf x => rfl
  | nil => rfl
  | cons hd tl ih1 ih2 => simp [PTree.map, PTree.leaves, ih1, ih2]

theorem ptree_map_congr_leaves : ∀ (t : PTree α) (f g : α → β),
    (∀ x ∈ t.leaves, f x = g x) → t.map f = t.map g := by
  intro t
  induction t with
  | leaf x => intro f g h; exact congrArg PTree.leaf (h x (List.mem_singleton_self x))
  | nil => intro f g _; rfl
  | cons hd tl ih1 ih2 =>
      intro f g h
      have h1 : ∀ x ∈ hd.leaves, f x = g x := fun x hx =>
        h x (by simp [PTree.leaves, hx])
      have h2 : ∀ x ∈ tl.leaves, f x = g x := fun x hx =>
        h x (by simp [PTree.leaves, hx])
      simp [PTree.map, ih1 f g h1, ih2 f g h2]

theorem obind_some_eq (x : α) (f : α → Option β) :
    (Bind.bind (some x) f : Option β) = f x := rfl

theorem obind_none_eq (f : α → Option β) :
    (Bind.bind (none : Option α) f : Option β) = none := rfl

theorem zipWith_mk_getPath : ∀ (t : PTree α) (u : PTree β) (z : PTree (α × β)),
    PTree.zipWith Prod.mk t u = some z →
    ∀ p : List Bool,
      (∀ c, z.getPath p = some c → t.getPath p = some c.1 ∧ u.getPath p = some c.2)
      ∧ (∀ x, t.getPath p = some x →
          ∃ y, u.getPath p = some y ∧ z.getPath p = some (x, y)) := by
  intro t
  induction t with
  | leaf a =>
      intro u z h p
      cases u with
      | leaf b =>
          cases h
          constructor
          · intro c hc
            cases p with
            | nil => cases hc; exact ⟨rfl, rfl⟩
            | cons d p => cases d <;> cases hc
          · intro x hx
            cases p with
            | nil => cases hx; exact ⟨b, rfl, rfl⟩
            | cons d p => cases d <;> cases hx
      | nil => cases h
      | cons uh ut => cases h
  | nil =>
      intro u z h p
      cases u with
      | leaf b => cases h
      | nil =>
          cases h
          constructor
          · intro c hc; cases p <;> cases hc
          · intro x hx; cases p <;> cases hx
      | cons uh ut => cases h
  | cons hd tl ih1 ih2 =>
      intro u z h p
      cases u with
      | leaf b => cases h
      | nil => cases h
      | cons uh ut =>
          simp only [PTree.zipWith] at h
          cases hh : PTree.zipWith Prod.mk hd uh with
          | none => rw [hh, obind_none_eq] at h; cases h
          | some w1 =>
              rw [hh, obind_some_eq] at h
              cases hh2 : PTree.zipWith Prod.mk tl ut with
              | none => rw [hh2, obind_none_eq] at h; cases h
              | some w2 =>
                  rw [hh2, obind_some_eq] at h
                  cases h
                  constructor
                  · intro c hc
                    cases p with
                    | nil => cases hc
                    | cons d p =>
                        cases d with
                        | false => exact (ih1 uh w1 hh p).1 c hc
                        | true => exact (ih2 ut w2 hh2 p).1 c hc
                  · intro x hx
                    cases p with
                    | nil => cases hx
                    | cons d p =>
                        cases d with
                        | false => exact (ih1 uh w1 hh p).2 x hx
                        | true => exact (ih2 ut w2 hh2 p).2 x hx

theorem zipPair_of_zipWith (t : PTree α) (u : PTree β) (z : PTree (α × β))
    (h : PTree.zipPair t u = .ok z) : PTree.zipWith Prod.mk t u = some z := by
  unfold PTree.zipPair at h
  cases hz : PTree.zipWith Prod.mk t u with
  | none => rw [hz] at h; cases h
  | some z2 => rw [hz] at h; cases h; rfl

theorem zipWith_mk_proj : ∀ (t : PTree α) (u : PTree β) (z : PTree (α × β)),
    PTree.zipWith Prod.mk t u = some z → z.map Prod.fst = t ∧ z.map Prod.snd = u := by
  intro t
  induction t with
  | leaf a =>
      intro u z h
      cases u with
      | leaf b => cases h; exact ⟨rfl, rfl⟩
      | nil => cases h
      | cons uh ut => cases h
  | nil =>
      intro u z h
      cases u with
      | leaf b => cases h
      | nil => cases h; exact ⟨rfl, rfl⟩
      | cons uh ut => cases h
  | cons hd tl ih1 ih2 =>
      intro u z h
      cases u with
      | leaf b => cases h
      | nil => cases h
      | cons uh ut =>
          simp only [PTree.zipWith] at h
          cases hh : PTree.zipWith Prod.mk hd uh with
          | none => rw [hh, obind_none_eq] at h; cases h
          | some w1 =>
              rw [hh, obind_some_eq] at h
              cases hh2 : PTree.zipWith Prod.mk tl ut with
              | none => rw [hh2, obind_none_eq] at h; cases h
              | some w2 =>
                  rw [hh2, obind_some_eq] at h
                  cases h
                  obtain ⟨e1, e2⟩ := ih1 uh w1 hh
                  obtain ⟨e3, e4⟩ := ih2 ut w2 hh2
                  simp [PTree.map, e1, e2, e3, e4]

theorem combineOpt_map (z : PTree γ) (f g : γ → Option α) :
    combineOpt (z.map f) (z.map g)
      = .ok (z.map fun c =>
          match f c with
          | some x => some x
          | none => g c) := by
  induction z with
  | leaf c => rfl
  | nil => rfl
  | cons hd tl ih1 ih2 =>
      simp only [combineOpt] at ih1 ih2
      simp only [combineOpt, PTree.map, PTree.zipWithE, ih1, ih2, bind_ok_eq]

theorem combineMany_maps (z : PTree γ) (g : γ → Option α) :
    ∀ fs : List (γ → Option α),
      combineMany (fs.map fun f => z.map f) (z.map g)
        = .ok (z.map fun c => firstSome (fs.map fun f => f c) (g c)) := by
  intro fs
  induction fs with
  | nil => rfl
  | cons f fs ih =>
      simp only [List.map_cons, combineMany, ih, bind_ok_eq]
      rw [combineOpt_map]
      rfl

theorem mapE_ok_forall (f : α → Except Err β) : ∀ (t : PTree α) (w : PTree β),
    t.mapE f = .ok w → ∀ x ∈ t.leaves, ∃ y, f x = .ok y := by
  intro t
  induction t with
  | leaf a =>
      intro w h x hx
      simp only [PTree.leaves, List.mem_singleton] at hx
      subst hx
      simp only [PTree.mapE] at h
      cases hf : f x with
      | error e => rw [hf, bind_error_eq] at h; cases h
      | ok y => exact ⟨y, rfl⟩
  | nil => intro w h x hx; cases hx
  | cons hd tl ih1 ih2 =>
      intro w h x hx
      simp only [PTree.mapE] at h
      cases hh : hd.mapE f with
      | error e => rw [hh, bind_error_eq] at h; cases h
      | ok w1 =>
          rw [hh, bind_ok_eq] at h
          cases hh2 : tl.mapE f with
          | error e => rw [hh2, bind_error_eq] at h; cases h
          | ok w2 =>
              simp only [PTree.leaves, List.mem_append] at hx
              cases hx with
              | inl hx => exact ih1 w1 hh x hx
              | inr hx => exact ih2 w2 hh2 x hx

/-- C4: for a `filter_pmap` compilation with discovered maximum output
rank `R`, the inner function `fun_wrapped` returns one bucket for every
integer `i` in `[-R, R)` (bucket `j` in the list holds axis `j - R`),
each bucket containing exactly the output leaves whose resolved output
axis equals that integer (empty buckets included); the backend is
configured with `2 * R` fixed output-axis slots, slot `j` carrying axis
`j - R`, plus two non-mapped channels; and recombining the buckets with
the non-mapped outputs (`combine(*pmapd, nonpmapd)`, as
`_PmapWrapper._call` does) restores the true output tree exactly, with
no further axis movement. -/
theorem pmap_bucket_layout
    (userFn : PTree Leaf → Except Err (PTree Leaf)) (outSpec : PTree AxisSpec) (R : Nat)
    (staticT dynamicT : PTree (Option Leaf)) (tuple args out : PTree Leaf)
    (outAxes : PTree AxisVal) (z : PTree (Leaf × AxisVal))
    (buckets : List (PTree (Option Leaf))) (dynNon statNon : PTree (Option Leaf))
    (htuple : combineStrict dynamicT staticT = .ok tuple)
    (hargs : tupleSnd tuple = .ok args)
    (hout : userFn args = .ok out)
    (haxes : resolveAxes out outSpec = .ok outAxes)
    (hz : PTree.zipPair out outAxes = .ok z)
    (hw : funWrapped userFn outSpec R staticT dynamicT = .ok (buckets, dynNon, statNon)) :
    buckets.length = 2 * R
    ∧ (pmapOutAxesSlots R).1.length = 2 * R
    ∧ (pmapOutAxesSlots R).2.1 = none
    ∧ (pmapOutAxesSlots R).2.2 = none
    ∧ (∀ j, j < 2 * R →
        (pmapOutAxesSlots R).1.getD j none = some ((j : Int) - (R : Int)))
    ∧ (∀ j, j < 2 * R → ∀ (p : List Bool) (l : Leaf),
        (buckets.getD j PTree.nil).getPath p = some (some l)
          ↔ out.getPath p = some l
            ∧ outAxes.getPath p = some (.aint ((j : Int) - (R : Int))))
    ∧ (do
        let nonp ← combineOpt dynNon statNon
        combineMany buckets nonp) = .ok (out.map some) := by
  simp only [funWrapped, htuple, bind_ok_eq, hargs, hout, haxes, hz] at hw
  cases hc : checkOutAxes R outAxes with
  | error e => rw [hc, bind_error_eq] at hw; cases hw
  | ok u =>
      cases u
      rw [hc, bind_ok_eq] at hw
      cases hw
      have hzw := zipPair_of_zipWith out outAxes z hz
      have hproj := zipWith_mk_proj out outAxes z hzw
      have hgp := zipWith_mk_getPath out outAxes z hzw
      have hcheckAll : ∀ x ∈ outAxes.leaves, ∃ y, checkMapOutAxis R x = .ok y := by
        revert hc
        unfold checkOutAxes
        cases hm : outAxes.mapE (checkMapOutAxis R) with
        | error e => intro hc; cases hc
        | ok w => intro _; exact mapE_ok_forall (checkMapOutAxis R) outAxes w hm
      refine ⟨by simp only [List.length_map, List.length_range],
        by simp only [pmapOutAxesSlots, List.length_map, List.length_range],
        rfl, rfl, ?_, ?_, ?_⟩
      · intro j hj
        show ((List.range (2 * R)).map
            fun (j : Nat) => some ((j : Int) - (R : Int))).getD j none = _
        exact getD_map_range _ _ _ hj _
      · intro j hj p l
        rw [getD_map_range _ _ _ hj]
        unfold bucketOf
        rw [getPath_map]
        constructor
        · intro h
          cases hzp : z.getPath p with
          | none => rw [hzp] at h; cases h
          | some c =>
              rw [hzp] at h
              have hmask : (if c.2 = .aint ((j : Int) - (R : Int)) then some c.1 else none)
                  = some l := Option.some.inj h
              by_cases hcond : c.2 = .aint ((j : Int) - (R : Int))
              · rw [if_pos hcond] at hmask
                cases hmask
                obtain ⟨ho, ha⟩ := (hgp p).1 c hzp
                exact ⟨ho, hcond ▸ ha⟩
              · rw [if_neg hcond] at hmask
                cases hmask
        · rintro ⟨h1, h2⟩
          obtain ⟨y, hy, hzp⟩ := (hgp p).2 l h1
          have hyv : y = .aint ((j : Int) - (R : Int)) := by
            have := hy.symm.trans h2
            cases this
            rfl
          subst hyv
          rw [hzp]
          simp
      · have ed := ptree_map_map
          (fun ol => match ol with
            | some (.arr a) => some (Leaf.arr a)
            | _ => none)
          (fun la : Leaf × AxisVal => if la.2 = .anone then some la.1 else none) z
        have es := ptree_map_map
          (fun ol => match ol with
            | some (.obj o) => some (Leaf.obj o)
            | _ => none)
          (fun la : Leaf × AxisVal => if la.2 = .anone then some la.1 else none) z
        rw [ed, es, combineOpt_map]
        simp only [bind_ok_eq, bucketOf]
        have hb : (List.range (2 * R)).map
            (fun (j : Nat) => z.map fun la : Leaf × AxisVal =>
              if la.2 = .aint ((j : Int) - (R : Int)) then some la.1 else none)
            = ((List.range (2 * R)).map
                (fun (j : Nat) => fun la : Leaf × AxisVal =>
                  if la.2 = .aint ((j : Int) - (R : Int)) then some la.1 else none)).map
                fun f => z.map f := by
          rw [List.map_map]
          rfl
        rw [hb, combineMany_maps]
        rw [← hproj.1, ptree_map_map]
        refine congrArg Except.ok (ptree_map_congr_leaves z _ _ ?_)
        intro c hc2
        obtain ⟨l, ax⟩ := c
        have haxmem : ax ∈ outAxes.leaves := by
          rw [← hproj.2, ptree_leaves_map]
          exact List.mem_map_of_mem Prod.snd hc2
        obtain ⟨y, hy⟩ := hcheckAll ax haxmem
        have hmasks : ((List.range (2 * R)).map
              (fun (j : Nat) => fun la : Leaf × AxisVal =>
                if la.2 = .aint ((j : Int) - (R : Int)) then some la.1 else none)).map
              (fun f => f (l, ax))
            = (List.range (2 * R)).map
              (fun (j : Nat) => if ax = .aint ((j : Int) - (R : Int)) then some l else none) := by
          rw [List.map_map]
          rfl
        rw [hmasks]
        cases ax with
        | anone =>
            rw [firstSome_all_none]
            · cases l <;> rfl
            · intro o ho
              obtain ⟨j, _, rfl⟩ := List.mem_map.mp ho
              simp
        | aint i =>
            have hbound : ¬(i < -(R : Int) ∨ (R : Int) ≤ i) := by
              intro hb2
              simp [checkMapOutAxis, hb2] at hy
            have hfe : (fun j : Nat =>
                if (AxisVal.aint i) = .aint ((j : Int) - (R : Int)) then some l else none)
                = fun j : Nat => if j = (i + (R : Int)).toNat then some l else none := by
              funext j
              have hiff : (AxisVal.aint i = .aint ((j : Int) - (R : Int)))
                  ↔ (j = (i + (R : Int)).toNat) := by
                rw [AxisVal.aint.injEq]
                omega
              rw [if_congr hiff rfl rfl]
            rw [hfe, firstSome_range_single l (2 * R) ((i + (R : Int)).toNat) (by omega)]
        | abad c2 => simp [checkMapOutAxis] at hy

theorem pmap_bucket_layout_witness :
    [(.leaf none : PTree (Option Leaf)),
      .leaf (some (.arr ⟨[2], 0, [5, 6]⟩))].length = 2 * 1
    ∧ (do
        let nonp ← combineOpt (.leaf none : PTree (Option Leaf)) (.leaf none)
        combineMany [(.leaf none : PTree (Option Leaf)),
          .leaf (some (.arr ⟨[2], 0, [5, 6]⟩))] nonp)
      = .ok ((PTree.leaf (Leaf.arr ⟨[2], 0, [5, 6]⟩)).map some)
    ∧ (([(.leaf none : PTree (Option Leaf)),
          .leaf (some (.arr ⟨[2], 0, [5, 6]⟩))].getD 1 PTree.nil).getPath []
        = some (some (.arr ⟨[2], 0, [5, 6]⟩))
        ↔ (PTree.leaf (Leaf.arr ⟨[2], 0, [5, 6]⟩)).getPath []
            = some (.arr ⟨[2], 0, [5, 6]⟩)
          ∧ (PTree.leaf (AxisVal.aint 0)).getPath []
            = some (.aint ((1 : Int) - ((1 : Nat) : Int)))) := by
  have h := pmap_bucket_layout projFirst (.leaf (.intSpec 0)) 1
    (mkTuple4 (.leaf (some (.obj 1))) (.cons (.leaf none) .nil)
      (.leaf (some (.obj 0))) (.leaf (some (.obj 2))))
    (mkTuple4 (.leaf none) (.cons (.leaf (some (.arr ⟨[2], 0, [5, 6]⟩))) .nil)
      (.leaf none) (.leaf none))
    (mkTuple4 (.leaf (.obj 1)) (.cons (.leaf (.arr ⟨[2], 0, [5, 6]⟩)) .nil)
      (.leaf (.obj 0)) (.leaf (.obj 2)))
    (.cons (.leaf (.arr ⟨[2], 0, [5, 6]⟩)) .nil)
    (.leaf (.arr ⟨[2], 0, [5, 6]⟩))
    (.leaf (.aint 0))
    (.leaf (⟨.arr ⟨[2], 0, [5, 6]⟩, .aint 0⟩))
    [.leaf none, .leaf (some (.arr ⟨[2], 0, [5, 6]⟩))]
    (.leaf none) (.leaf none)
    (by decide) (by decide) (by decide) (by decide) (by decide) (by decide)
  exact ⟨h.1, h.2.2.2.2.2.2,
    h.2.2.2.2.2.1 1 (by decide) [] (.arr ⟨[2], 0, [5, 6]⟩)⟩

/-- C9: both wrappers reject any call carrying keyword arguments,
unconditionally and before any other work (the check is the first
statement of `_VmapWrapper.__call__` and of `_PmapWrapper._call`). -/
theorem wrappers_reject_kwargs (userFn : PTree Leaf → Except Err (PTree Leaf))
    (inSpec outSpec : PTree AxisSpec) (axisSize : Option Nat) (conf : PmapConf)
    (args : PTree Leaf) (numKwargs : Nat) (h : numKwargs ≠ 0) :
    vmapCall userFn inSpec outSpec axisSize args numKwargs = .error .kwargsErr
    ∧ pmapCall conf args numKwargs = .error .kwargsErr := by
  constructor
  · rw [vmapCall, if_pos h]
  · rw [pmapCall, if_pos h]

theorem wrappers_reject_kwargs_witness :
    vmapCall projFirst (.leaf .noneSpec) (.leaf .noneSpec) none (.leaf (.obj 0)) 1
      = .error .kwargsErr
    ∧ pmapCall ⟨projFirst, 0, (0, 0), .leaf .noneSpec, .leaf .noneSpec, 0, none, none, []⟩
        (.leaf (.obj 0)) 1 = .error .kwargsErr :=
  wrappers_reject_kwargs projFirst (.leaf .noneSpec) (.leaf .noneSpec) none
    ⟨projFirst, 0, (0, 0), .leaf .noneSpec, .leaf .noneSpec, 0, none, none, []⟩
    (.leaf (.obj 0)) 1 (by decide)

/-- C10: a lifted wrapper stored as a class attribute and accessed through
an instance yields `jtu.Partial(self, instance)`, a bound callable whose
every call passes the instance as the first positional argument; accessed
through the class itself (`instance is None`), `__get__` returns the
wrapper unchanged.  Both `_VmapWrapper.__get__` and
`_PmapWrapper.__get__` behave this way. -/
theorem wrapper_descriptor_binding (userFn : PTree Leaf → Except Err (PTree Leaf))
    (inSpec outSpec : PTree AxisSpec) (axisSize : Option Nat) (conf : PmapConf)
    (inst : PTree Leaf) (argsL : List (PTree Leaf)) (k : Nat) :
    descriptorGet (vmapWrapperCallable userFn inSpec outSpec axisSize) none
      = vmapWrapperCallable userFn inSpec outSpec axisSize
    ∧ descriptorGet (pmapWrapperCallable conf) none = pmapWrapperCallable conf
    ∧ descriptorGet (vmapWrapperCallable userFn inSpec outSpec axisSize) (some inst) argsL k
      = vmapCall userFn inSpec outSpec axisSize (tupleOfList (inst :: argsL)) k
    ∧ descriptorGet (pmapWrapperCallable conf) (some inst) argsL k
      = pmapCall conf (tupleOfList (inst :: argsL)) k :=
  ⟨rfl, rfl, rfl, rfl⟩

/-- C8: `filter_pmap` validates its configuration at lift time, before
any call exists: supplying the reserved backend options
`static_broadcasted_argnums` or `donate_argnums` directly is a
configuration error, and `donate` outside `{"arrays", "warn", "none"}`
(such as `"bogus"`) is a configuration error. -/
theorem filter_pmap_lift_validation (conf : PmapConf) (donate : String)
    (ks : List String) :
    ((ks.contains "static_broadcasted_argnums" || ks.contains "donate_argnums") = true →
      filterPmapLift conf donate ks = .error .reservedKwargErr)
    ∧ ((ks.contains "static_broadcasted_argnums" || ks.contains "donate_argnums") = false →
        donate ∉ donateValues →
        filterPmapLift conf donate ks = .error .donateErr)
    ∧ filterPmapLift conf "bogus" [] = .error .donateErr := by
  refine ⟨?_, ?_, by rw [filterPmapLift, if_neg (by decide), if_neg (by decide)]⟩
  · intro h
    rw [filterPmapLift, if_pos h]
  · intro h1 h2
    have hne : ¬(donate = "arrays" ∨ donate = "warn" ∨ donate = "none") := by
      intro hc
      apply h2
      rcases hc with h | h | h <;> simp [donateValues, h]
    rw [filterPmapLift, if_neg (by rw [h1]; decide), if_neg hne]

theorem filter_pmap_lift_validation_witness :
    filterPmapLift ⟨projFirst, 0, (0, 0), .leaf .noneSpec, .leaf .noneSpec, 0, none, none, []⟩
        "arrays" ["donate_argnums"] = .error .reservedKwargErr
    ∧ filterPmapLift ⟨projFirst, 0, (0, 0), .leaf .noneSpec, .leaf .noneSpec, 0, none, none, []⟩
        "bogus" ["backend"] = .error .donateErr :=
  ⟨(filter_pmap_lift_validation
      ⟨projFirst, 0, (0, 0), .leaf .noneSpec, .leaf .noneSpec, 0, none, none, []⟩
      "arrays" ["donate_argnums"]).1 (by decide),
   (filter_pmap_lift_validation
      ⟨projFirst, 0, (0, 0), .leaf .noneSpec, .leaf .noneSpec, 0, none, none, []⟩
      "bogus" ["backend"]).2.1 (by decide) (by decide)⟩

/-- C5: on the parallel-map path, `_check_map_out_axis` raises the
axis-bounds ValueError for every resolved integer axis outside
`[-R, R)` (where `R` is the maximum output leaf rank discovered by the
abstract evaluation of the vmap-wrapped function, so it includes the
batch dimension), accepts every integer inside the interval and `None`,
and raises the integers-and-Nones ValueError for a resolved leaf of any
other type; in particular lifting a function returning a rank-0 scalar
with `out_axes = 1` discovers `R = 1` and the call fails with the
axis-bounds error. -/
theorem pmap_out_axis_validation (R : Nat) :
    (∀ i : Int, (i < -(R : Int) ∨ (R : Int) ≤ i) →
      checkMapOutAxis R (.aint i) = .error .axisBoundsErr)
    ∧ (∀ i : Int, -(R : Int) ≤ i → i < (R : Int) → checkMapOutAxis R (.aint i) = .ok ())
    ∧ (∀ c : Nat, checkMapOutAxis R (.abad c) = .error .outAxesTypeErr)
    ∧ checkMapOutAxis R .anone = .ok ()
    ∧ computeMaxOutSize (fun _ => .ok (.leaf (.arr ⟨[], 0, [7]⟩)))
        (partitionP (mkTuple4 (.leaf (.obj 1))
          (.cons (.leaf (.arr ⟨[2], 0, [5, 5]⟩)) .nil) (maybeDummy none)
          (.leaf (.obj 2))) Leaf.isArr).2
        (partitionP (mkTuple4 (.leaf (.obj 1))
          (.cons (.leaf (.arr ⟨[2], 0, [5, 5]⟩)) .nil) (maybeDummy none)
          (.leaf (.obj 2))) Leaf.isArr).1
        (mkTuple4 (.leaf .anone) (.cons (.leaf (.aint 0)) .nil) (.leaf (.aint 0))
          (.leaf .anone)) none
      = .ok 1
    ∧ pmapCall ⟨fun _ => .ok (.leaf (.arr ⟨[], 0, [7]⟩)), 1, (1, 1),
        .leaf (.callableSpec (ifArrayF 0)), .leaf (.intSpec 1), 2, none, none, []⟩
        (.cons (.leaf (.arr ⟨[2], 0, [5, 5]⟩)) .nil) 0 = .error .axisBoundsErr := by
  refine ⟨?_, ?_, fun c => rfl, rfl, by decide, by decide⟩
  · intro i hi
    simp only [checkMapOutAxis]
    rw [if_pos hi]
  · intro i h1 h2
    simp only [checkMapOutAxis]
    rw [if_neg (by omega)]

theorem pmap_out_axis_validation_witness :
    checkMapOutAxis 1 (.aint 1) = .error .axisBoundsErr
    ∧ checkMapOutAxis 1 (.aint 0) = .ok ()
    ∧ checkMapOutAxis 1 (.aint (-1)) = .ok () :=
  ⟨(pmap_out_axis_validation 1).1 1 (by decide),
   (pmap_out_axis_validation 1).2.1 0 (by decide) (by decide),
   (pmap_out_axis_validation 1).2.1 (-1) (by decide) (by decide)⟩

end Equinox
